import Mathlib

/-!
# Weekly Course Tracker — verification of the domain/service layer

Shallow embedding of the week-indexed task/course domain layer of the
Weekly Course Tracker repository:

* `src/utils/weekCalculations.ts` — ISO 8601 week arithmetic
  (`getWeekNumber`, `getWeekBounds`, `isDateInWeek`);
* `src/utils/validation.ts` — `validateNonEmptyString`;
* `src/services/TaskService.ts` — task CRUD, completion, week filtering;
* `src/services/CourseService.ts` — course CRUD, duplicate detection,
  cascade/reassign deletion;
* `src/services/StatisticsService.ts` — weekly statistics;
* `src/services/TrackerService.ts` — the coordinator facade.

Modelling conventions:

* JavaScript `Date` values are modelled as integer millisecond timestamps
  (`Int`, milliseconds since the Unix epoch).  The code reads dates through
  `getFullYear`/`getMonth`/`getDate`, i.e. through the proleptic Gregorian
  calendar, which is modelled by `daysFromCivil`/`civilFromDays` below; the
  local time zone is taken to be UTC, so the `Date.UTC`/local round-trips in
  the source are the identity on the calendar day.
* JavaScript `Map` objects are modelled as insertion-ordered association
  lists (`List (String × α)`); `Map.get`/`set`/`delete` become
  `mget`/`mset`/`mdel`.
* The storage collaborator is external to this layer (spec §1); each call to
  `storage.save` is modelled by its outcome, an `Option String`
  (`none` = success, `some msg` = a `StorageError` carrying `msg`).
* `generateUUID` is an external opaque id generator; a freshly generated id
  is passed to each creating operation as an explicit argument.
* `new Date()` ("now") is passed explicitly as a millisecond timestamp.
* JavaScript `String.prototype.trim` is modelled by `jsTrim`, which strips
  the ASCII whitespace characters space, tab, LF and CR from both ends.
-/

namespace Weekly

/-! ## Calendar model (proleptic Gregorian, as implemented by JS `Date`) -/

/-- Milliseconds per day, the constant `86400000` of `getWeekNumber`. -/
def msPerDay : Int := 86400000

/-- Gregorian leap-year rule (JS `Date` calendar). -/
def isLeap (y : Int) : Bool :=
  (y % 4 == 0 && y % 100 != 0) || y % 400 == 0

/-- Number of days of calendar year `y`. -/
def daysInYear (y : Int) : Int := if isLeap y then 366 else 365

/-- `sumDays y n` is the number of days of the `n` consecutive years
`y, y+1, …, y+n-1`. -/
def sumDays (y : Int) : Nat → Int
  | 0 => 0
  | n + 1 => daysInYear y + sumDays (y + 1) n

/-- Day number (days since 1970-01-01) of January 1 of year `y`. -/
def jan1 (y : Int) : Int :=
  if 1970 ≤ y then sumDays 1970 (y - 1970).toNat
  else - sumDays y (1970 - y).toNat

/-- Cumulative days before month `m` (1–12) in a year with leap flag `leap`. -/
def daysBeforeMonth (leap : Bool) (m : Nat) : Int :=
  let base : Int :=
    match m with
    | 1 => 0 | 2 => 31 | 3 => 59 | 4 => 90 | 5 => 120 | 6 => 151
    | 7 => 181 | 8 => 212 | 9 => 243 | 10 => 273 | 11 => 304 | _ => 334
  if leap && m ≥ 3 then base + 1 else base

/-- Day number of the civil date `(y, m, d)` (month `1`–`12`, day `1`-based);
this is the calendar arithmetic performed by `Date.UTC(y, m-1, d)`. -/
def daysFromCivil (y : Int) (m d : Nat) : Int :=
  jan1 y + daysBeforeMonth (isLeap y) m + ((d : Int) - 1)

/-- Scan at most `fuel` years starting at `y`, peeling whole years off the
day offset `r`; used to recover the year of a day number. -/
def yearScan : Nat → Int → Int → Int × Int
  | 0, y, r => (y, r)
  | fuel + 1, y, r =>
    if r < daysInYear y then (y, r) else yearScan fuel (y + 1) (r - daysInYear y)

/-- Calendar year containing day number `n` (JS `getUTCFullYear`).  The
400-year Gregorian cycle (146097 days) reduces the search to one cycle. -/
def yearOfDay (n : Int) : Int :=
  let c := n / 146097
  (yearScan 400 (1970 + 400 * c) (n - 146097 * c)).1

/-- Month and (1-based) day within a year from a day-of-year offset
`doy ∈ [0, daysInYear)`. -/
def mdFromDoy (leap : Bool) (doy : Int) : Nat × Nat :=
  let l : Int := if leap then 1 else 0
  if doy < 31 then (1, (doy + 1).toNat)
  else if doy < 59 + l then (2, (doy - 31 + 1).toNat)
  else if doy < 90 + l then (3, (doy - (59 + l) + 1).toNat)
  else if doy < 120 + l then (4, (doy - (90 + l) + 1).toNat)
  else if doy < 151 + l then (5, (doy - (120 + l) + 1).toNat)
  else if doy < 181 + l then (6, (doy - (151 + l) + 1).toNat)
  else if doy < 212 + l then (7, (doy - (181 + l) + 1).toNat)
  else if doy < 243 + l then (8, (doy - (212 + l) + 1).toNat)
  else if doy < 273 + l then (9, (doy - (243 + l) + 1).toNat)
  else if doy < 304 + l then (10, (doy - (273 + l) + 1).toNat)
  else if doy < 334 + l then (11, (doy - (304 + l) + 1).toNat)
  else (12, (doy - (334 + l) + 1).toNat)

/-- Civil date `(year, month, day)` of day number `n`
(JS `getUTCFullYear`/`getUTCMonth + 1`/`getUTCDate`). -/
def civilFromDays (n : Int) : Int × Nat × Nat :=
  let y := yearOfDay n
  let md := mdFromDoy (isLeap y) (n - jan1 y)
  (y, md.1, md.2)

/-- JS `getUTCDay` of a day number: `0` = Sunday … `6` = Saturday
(day 0, 1970-01-01, was a Thursday). -/
def getUTCDay (n : Int) : Int := (n + 4) % 7

/-- ISO day number Monday = 1 … Sunday = 7: the `d.getUTCDay() || 7` idiom
of `getWeekNumber`/`getWeekBounds`. -/
def isoDayNum (n : Int) : Int :=
  let g := getUTCDay n
  if g = 0 then 7 else g

/-! ## `weekCalculations.ts` -/

/-- `getWeekNumber` of `src/utils/weekCalculations.ts`, at the level of day
numbers: shift the day to the Thursday of its Monday–Sunday week, then count
weeks from January 1 of that Thursday's year. -/
def getWeekNumberD (day : Int) : Int × Int :=
  let dayNum := isoDayNum day
  let thu := day + 4 - dayNum
  let y := yearOfDay thu
  let yearStart := jan1 y
  -- Math.ceil(((thu - yearStart) + 1) / 7)
  let weekNumber := (thu - yearStart + 1 + 6) / 7
  (weekNumber, y)

/-- `getWeekNumber` on a millisecond timestamp: the source first truncates
the date to its civil day via `Date.UTC(getFullYear, getMonth, getDate)`. -/
def getWeekNumber (t : Int) : Int × Int :=
  getWeekNumberD (t / msPerDay)

/-- `getWeekBounds` of `src/utils/weekCalculations.ts`.  Returns the
millisecond timestamps of the returned `startDate` and `endDate`: the source
computes day numbers in UTC and converts the results to local (midnight)
dates through `getUTCFullYear`/`getUTCMonth`/`getUTCDate`. -/
def getWeekBounds (weekNumber year : Int) : Int × Int :=
  let jan4 := daysFromCivil year 1 4
  let jan4Day := isoDayNum jan4
  let week1Monday := jan4 - jan4Day + 1
  let startDay := week1Monday + (weekNumber - 1) * 7
  let endDay := startDay + 6
  let s := civilFromDays startDay
  let e := civilFromDays endDay
  (daysFromCivil s.1 s.2.1 s.2.2 * msPerDay,
   daysFromCivil e.1 e.2.1 e.2.2 * msPerDay)

/-- `isDateInWeek` of `src/utils/weekCalculations.ts`. -/
def isDateInWeek (t : Int) (weekNumber year : Int) : Bool :=
  let dw := getWeekNumber t
  dw.1 == weekNumber && dw.2 == year

/-- Number of ISO weeks of year `y` — the spec's validity condition for a
`(weekNumber, year)` pair (spec §4.1: a year has 53 ISO weeks iff Jan 1
falls on Thursday, or it is a leap year and Jan 1 falls on Wednesday). -/
def isoWeeksInYear (y : Int) : Int :=
  if isoDayNum (jan1 y) = 4 ∨ (isLeap y ∧ isoDayNum (jan1 y) = 3) then 53 else 52

/-! ## Calendar lemmas -/

theorem daysInYear_pos (y : Int) : 0 < daysInYear y := by
  unfold daysInYear; split <;> omega

theorem daysInYear_ge (y : Int) : 365 ≤ daysInYear y := by
  unfold daysInYear; split <;> omega

theorem daysInYear_le (y : Int) : daysInYear y ≤ 366 := by
  unfold daysInYear; split <;> omega

theorem sumDays_succ_back (y : Int) (n : Nat) :
    sumDays y (n + 1) = sumDays y n + daysInYear (y + n) := by
  induction n generalizing y with
  | zero => simp [sumDays]
  | succ k ih =>
    have h1 : sumDays y (k + 1 + 1) = daysInYear y + sumDays (y + 1) (k + 1) := rfl
    have h2 : sumDays y (k + 1) = daysInYear y + sumDays (y + 1) k := rfl
    rw [h1, ih (y + 1), h2]
    have : y + 1 + (k : Int) = y + ((k : Nat) + 1 : Nat) := by push_cast; ring
    rw [this]
    ring

theorem sumDays_nonneg (y : Int) (n : Nat) : 0 ≤ sumDays y n := by
  induction n generalizing y with
  | zero => simp [sumDays]
  | succ k ih =>
    have := daysInYear_pos y
    have := ih (y + 1)
    simp only [sumDays]
    omega

theorem jan1_succ (y : Int) : jan1 (y + 1) = jan1 y + daysInYear y := by
  unfold jan1
  by_cases h : 1970 ≤ y
  · rw [if_pos h, if_pos (by omega)]
    have hn : (y + 1 - 1970).toNat = (y - 1970).toNat + 1 := by omega
    rw [hn, sumDays_succ_back]
    have : (1970 : Int) + ((y - 1970).toNat : Int) = y := by omega
    rw [this]
  · by_cases h2 : 1970 ≤ y + 1
    · -- y = 1969
      have hy : y = 1969 := by omega
      subst hy
      rw [if_pos (by omega), if_neg (by omega)]
      norm_num [sumDays]
    · rw [if_neg h2, if_neg h]
      have hn : (1970 - y).toNat = (1970 - (y + 1)).toNat + 1 := by omega
      rw [hn]
      have : sumDays y ((1970 - (y + 1)).toNat + 1)
          = daysInYear y + sumDays (y + 1) (1970 - (y + 1)).toNat := rfl
      rw [this]
      ring

theorem jan1_add (y : Int) (n : Nat) : jan1 (y + n) = jan1 y + sumDays y n := by
  induction n with
  | zero => simp [sumDays]
  | succ k ih =>
    have : y + ((k : Nat) + 1 : Nat) = (y + k) + 1 := by push_cast; ring
    rw [this, jan1_succ, ih, sumDays_succ_back]
    ring

theorem jan1_mono {y z : Int} (h : y ≤ z) : jan1 y ≤ jan1 z := by
  have hz : z = y + ((z - y).toNat : Nat) := by omega
  rw [hz, jan1_add]
  have := sumDays_nonneg y (z - y).toNat
  omega

theorem jan1_lt {y z : Int} (h : y < z) : jan1 y < jan1 z := by
  have h1 : jan1 (y + 1) ≤ jan1 z := jan1_mono (by omega)
  rw [jan1_succ] at h1
  have := daysInYear_pos y
  omega

theorem isLeap_add_400 (y : Int) : isLeap (y + 400) = isLeap y := by
  have h4 : (y + 400) % 4 = y % 4 := by omega
  have h100 : (y + 400) % 100 = y % 100 := by omega
  have h400 : (y + 400) % 400 = y % 400 := by omega
  unfold isLeap
  rw [h4, h100, h400]

theorem daysInYear_add_400 (y : Int) : daysInYear (y + 400) = daysInYear y := by
  unfold daysInYear
  rw [isLeap_add_400]

theorem sumDays_shift (y : Int) :
    sumDays (y + 1) 400 = sumDays y 400 + daysInYear (y + 400) - daysInYear y := by
  have h1 : sumDays y 401 = daysInYear y + sumDays (y + 1) 400 := rfl
  have h2 : sumDays y 401 = sumDays y 400 + daysInYear (y + (400 : Nat)) := sumDays_succ_back y 400
  have h3 : y + ((400 : Nat) : Int) = y + 400 := by norm_num
  rw [h3] at h2
  omega

set_option maxRecDepth 4000 in
theorem sumDays_400 (y : Int) : sumDays y 400 = 146097 := by
  induction y using Int.induction_on with
  | hz => decide
  | hp k ih =>
    rw [sumDays_shift, daysInYear_add_400, ih]
    ring
  | hn k ih =>
    have := sumDays_shift (-(k : Int) - 1)
    rw [daysInYear_add_400 (-(k : Int) - 1)] at this
    have he : (-(k : Int) - 1) + 1 = -(k : Int) := by ring
    rw [he] at this
    omega

theorem jan1_add_400 (y : Int) : jan1 (y + 400) = jan1 y + 146097 := by
  have h : y + (400 : Int) = y + ((400 : Nat) : Int) := by norm_num
  rw [h, jan1_add, sumDays_400]

theorem jan1_cycle (c : Int) : jan1 (1970 + 400 * c) = 146097 * c := by
  induction c using Int.induction_on with
  | hz => simp [jan1, sumDays]
  | hp k ih =>
    have h : (1970 : Int) + 400 * ((k : Int) + 1) = (1970 + 400 * k) + 400 := by ring
    rw [h, jan1_add_400, ih]
    ring
  | hn k ih =>
    have h : (1970 : Int) + 400 * (-(k : Int)) = (1970 + 400 * (-(k : Int) - 1)) + 400 := by ring
    rw [h, jan1_add_400] at ih
    have : jan1 (1970 + 400 * (-(k : Int) - 1)) = 146097 * (-(k : Int)) - 146097 := by omega
    rw [this]
    ring

theorem yearScan_spec :
    ∀ (fuel : Nat) (y n : Int), jan1 y ≤ n → n < jan1 (y + fuel) →
      jan1 (yearScan fuel y (n - jan1 y)).1 ≤ n ∧
      n < jan1 ((yearScan fuel y (n - jan1 y)).1 + 1) ∧
      (yearScan fuel y (n - jan1 y)).2 = n - jan1 (yearScan fuel y (n - jan1 y)).1 := by
  intro fuel
  induction fuel with
  | zero =>
    intro y n h1 h2
    simp only [Nat.cast_zero, add_zero] at h2
    omega
  | succ k ih =>
    intro y n h1 h2
    have hstep : yearScan (k + 1) y (n - jan1 y)
        = if n - jan1 y < daysInYear y then (y, n - jan1 y)
          else yearScan k (y + 1) (n - jan1 y - daysInYear y) := rfl
    by_cases hc : n - jan1 y < daysInYear y
    · rw [hstep, if_pos hc]
      have hj := jan1_succ y
      refine ⟨h1, ?_, rfl⟩
      show n < jan1 (y + 1)
      omega
    · rw [hstep, if_neg hc]
      have hr : n - jan1 y - daysInYear y = n - jan1 (y + 1) := by
        rw [jan1_succ]; ring
      rw [hr]
      apply ih (y + 1) n
      · rw [jan1_succ]; omega
      · have hcast : y + 1 + (k : Int) = y + ((k + 1 : Nat) : Int) := by push_cast; ring
        rw [hcast]
        exact h2

theorem yearOfDay_spec (n : Int) :
    jan1 (yearOfDay n) ≤ n ∧ n < jan1 (yearOfDay n + 1) := by
  have hdef : yearOfDay n
      = (yearScan 400 (1970 + 400 * (n / 146097)) (n - 146097 * (n / 146097))).1 := rfl
  set c := n / 146097 with hc
  have hbase : jan1 (1970 + 400 * c) = 146097 * c := jan1_cycle c
  have hupper : jan1 (1970 + 400 * c + ((400 : Nat) : Int)) = 146097 * c + 146097 := by
    have h : (1970 : Int) + 400 * c + ((400 : Nat) : Int) = (1970 + 400 * c) + 400 := by
      norm_num
    rw [h, jan1_add_400, hbase]
  have h1 : jan1 (1970 + 400 * c) ≤ n := by rw [hbase]; omega
  have h2 : n < jan1 (1970 + 400 * c + ((400 : Nat) : Int)) := by rw [hupper]; omega
  have hspec := yearScan_spec 400 (1970 + 400 * c) n h1 h2
  have harg : n - 146097 * c = n - jan1 (1970 + 400 * c) := by rw [hbase]
  rw [hdef, harg]
  exact ⟨hspec.1, hspec.2.1⟩

theorem yearOfDay_eq {y n : Int} (h1 : jan1 y ≤ n) (h2 : n < jan1 (y + 1)) :
    yearOfDay n = y := by
  have hs := yearOfDay_spec n
  by_contra hne
  rcases lt_or_gt_of_ne hne with hlt | hgt
  · have : jan1 (yearOfDay n + 1) ≤ jan1 y := jan1_mono (by omega)
    omega
  · have : jan1 (y + 1) ≤ jan1 (yearOfDay n) := jan1_mono (by omega)
    omega

set_option maxRecDepth 8000 in
/-- The month/day extraction agrees with the cumulative month table, checked
exhaustively over the (at most 366) day-of-year offsets. -/
theorem mdFromDoy_sum (leap : Bool) (doy : Int) (h0 : 0 ≤ doy)
    (h1 : doy < (if leap then 366 else 365)) :
    daysBeforeMonth leap (mdFromDoy leap doy).1 + (((mdFromDoy leap doy).2 : Int) - 1)
      = doy := by
  have hnat : ∀ k : Nat, k < 366 →
      (((k : Int) < (if leap then (366 : Int) else 365)) →
        daysBeforeMonth leap (mdFromDoy leap (k : Int)).1
          + (((mdFromDoy leap (k : Int)).2 : Int) - 1) = (k : Int)) := by
    cases leap <;> decide
  have hk : doy = ((doy.toNat : Nat) : Int) := by omega
  rw [hk]
  apply hnat
  · cases leap <;> simp at h1 <;> omega
  · rw [← hk]; exact h1

/-- Converting a day number to a civil date and back is the identity. -/
theorem daysFromCivil_civilFromDays (n : Int) :
    daysFromCivil (civilFromDays n).1 (civilFromDays n).2.1 (civilFromDays n).2.2 = n := by
  have hs := yearOfDay_spec n
  have hj := jan1_succ (yearOfDay n)
  show daysFromCivil (yearOfDay n)
      (mdFromDoy (isLeap (yearOfDay n)) (n - jan1 (yearOfDay n))).1
      (mdFromDoy (isLeap (yearOfDay n)) (n - jan1 (yearOfDay n))).2 = n
  unfold daysFromCivil
  have hsum := mdFromDoy_sum (isLeap (yearOfDay n)) (n - jan1 (yearOfDay n))
    (by omega)
    (by
      have hle : daysInYear (yearOfDay n) = (if isLeap (yearOfDay n) then (366 : Int) else 365) := rfl
      omega)
  omega

/-! ## Weekday lemmas -/

theorem isoDayNum_eq (n : Int) : isoDayNum n = (n + 3) % 7 + 1 := by
  show (if (n + 4) % 7 = 0 then 7 else (n + 4) % 7) = (n + 3) % 7 + 1
  split <;> omega

theorem isoDayNum_range (n : Int) : 1 ≤ isoDayNum n ∧ isoDayNum n ≤ 7 := by
  rw [isoDayNum_eq]
  omega

/-- Day number of the Monday of ISO week `w` of year `y`, as computed by
`getWeekBounds`: Monday of the week of January 4, plus `(w-1)*7` days. -/
def weekStartDay (w y : Int) : Int :=
  (jan1 y + 3) - isoDayNum (jan1 y + 3) + 1 + (w - 1) * 7

theorem weekStartDay_mod (w y : Int) : (weekStartDay w y + 3) % 7 = 0 := by
  have h := isoDayNum_eq (jan1 y + 3)
  unfold weekStartDay
  omega

theorem weekStartDay_bounds (w y : Int) (h1 : 1 ≤ w) (h2 : w ≤ isoWeeksInYear y) :
    jan1 y ≤ weekStartDay w y + 3 ∧ weekStartDay w y + 3 < jan1 (y + 1) := by
  have hd := isoDayNum_eq (jan1 y + 3)
  have hdr := isoDayNum_range (jan1 y + 3)
  have hj := jan1_succ y
  have hge := daysInYear_ge y
  unfold isoWeeksInYear at h2
  unfold weekStartDay
  by_cases hcond : isoDayNum (jan1 y) = 4 ∨ (isLeap y ∧ isoDayNum (jan1 y) = 3)
  · rw [if_pos hcond] at h2
    have hd0 := isoDayNum_eq (jan1 y)
    rcases hcond with hthu | ⟨hleap, hwed⟩
    · omega
    · have hl : daysInYear y = 366 := by simp [daysInYear, hleap]
      omega
  · rw [if_neg hcond] at h2
    omega

theorem thuOf_of_monday {M d : Int} (hM : (M + 3) % 7 = 0) (h1 : M ≤ d)
    (h2 : d ≤ M + 6) : d + 4 - isoDayNum d = M + 3 := by
  have hd := isoDayNum_eq d
  omega

/-- Every day of a valid ISO week is mapped by `getWeekNumber`'s day-level
computation back to that week. -/
theorem getWeekNumberD_eq_of_valid (w y : Int) (h1 : 1 ≤ w)
    (h2 : w ≤ isoWeeksInYear y) (d : Int) (hd1 : weekStartDay w y ≤ d)
    (hd2 : d ≤ weekStartDay w y + 6) : getWeekNumberD d = (w, y) := by
  have hM := weekStartDay_mod w y
  have hB := weekStartDay_bounds w y h1 h2
  have hthu : d + 4 - isoDayNum d = weekStartDay w y + 3 :=
    thuOf_of_monday hM hd1 hd2
  show ((d + 4 - isoDayNum d - jan1 (yearOfDay (d + 4 - isoDayNum d)) + 1 + 6) / 7,
        yearOfDay (d + 4 - isoDayNum d)) = (w, y)
  rw [hthu]
  have hy : yearOfDay (weekStartDay w y + 3) = y := yearOfDay_eq hB.1 hB.2
  rw [hy]
  have hdr := isoDayNum_range (jan1 y + 3)
  have hweek : (weekStartDay w y + 3 - jan1 y + 1 + 6) / 7 = w := by
    unfold weekStartDay
    omega
  rw [hweek]

/-- `getWeekBounds` returns the millisecond timestamps of the Monday of the
requested week and of the day six days later, both at local midnight. -/
theorem getWeekBounds_eq (w y : Int) :
    getWeekBounds w y
      = (weekStartDay w y * msPerDay, (weekStartDay w y + 6) * msPerDay) := by
  have h4 : daysFromCivil y 1 4 = jan1 y + 3 := by
    simp [daysFromCivil, daysBeforeMonth]
  show (daysFromCivil
          (civilFromDays (daysFromCivil y 1 4 - isoDayNum (daysFromCivil y 1 4) + 1 + (w - 1) * 7)).1
          (civilFromDays (daysFromCivil y 1 4 - isoDayNum (daysFromCivil y 1 4) + 1 + (w - 1) * 7)).2.1
          (civilFromDays (daysFromCivil y 1 4 - isoDayNum (daysFromCivil y 1 4) + 1 + (w - 1) * 7)).2.2
          * msPerDay,
        daysFromCivil
          (civilFromDays (daysFromCivil y 1 4 - isoDayNum (daysFromCivil y 1 4) + 1 + (w - 1) * 7 + 6)).1
          (civilFromDays (daysFromCivil y 1 4 - isoDayNum (daysFromCivil y 1 4) + 1 + (w - 1) * 7 + 6)).2.1
          (civilFromDays (daysFromCivil y 1 4 - isoDayNum (daysFromCivil y 1 4) + 1 + (w - 1) * 7 + 6)).2.2
          * msPerDay)
      = (weekStartDay w y * msPerDay, (weekStartDay w y + 6) * msPerDay)
  rw [daysFromCivil_civilFromDays, daysFromCivil_civilFromDays, h4]
  rfl

/-! ## Error values (`src/models/errors.ts`)

All failures in this layer are returned as values of a `Result` type
(`Except Err` here), never thrown. -/

inductive Err where
  | validation (msg : String)
  | notFound (msg : String)
  | storage (msg : String)
  | generic (msg : String)
deriving DecidableEq

/-- The `message` property of the underlying JS `Error`. -/
def Err.message : Err → String
  | .validation m => m
  | .notFound m => m
  | .storage m => m
  | .generic m => m

/-- Discriminator: is this error a `ValidationError`? -/
def Err.isValidation : Err → Bool
  | .validation _ => true
  | _ => false

/-- Discriminator: is this error a `NotFoundError`? -/
def Err.isNotFound : Err → Bool
  | .notFound _ => true
  | _ => false

/-- Discriminator: is this `Result` a failure (`success: false`)? -/
def isFailure : Except Err α → Bool
  | .error _ => true
  | .ok _ => false

/-- Discriminator: is this `Result` a failure carrying a `ValidationError`? -/
def isValidationFailure : Except Err α → Bool
  | .error (.validation _) => true
  | _ => false

/-! ## JS `Map` model: insertion-ordered association lists -/

/-- `Map.get` (first entry with the key). -/
def mget : List (String × α) → String → Option α
  | [], _ => none
  | (k, v) :: r, k' => if k = k' then some v else mget r k'

/-- `Map.set`: replace the value in place if the key is present (JS `Map`
keeps the original insertion position), append otherwise. -/
def mset : List (String × α) → String → α → List (String × α)
  | [], k, v => [(k, v)]
  | (k0, v0) :: r, k, v => if k0 = k then (k, v) :: r else (k0, v0) :: mset r k v

/-- `Map.delete`. -/
def mdel : List (String × α) → String → List (String × α)
  | [], _ => []
  | (k0, v0) :: r, k => if k0 = k then mdel r k else (k0, v0) :: mdel r k

/-- `Array.from(map.values())`: the values in insertion order. -/
def mvalues (m : List (String × α)) : List α := m.map (·.2)

/-- Well-formedness of the JS `Map` model: a `Map` never holds two entries
with the same key. -/
def keysNodup (m : List (String × α)) : Prop := (m.map Prod.fst).Nodup

/-! ## JS string trimming (`String.prototype.trim`) -/

/-- Whitespace characters stripped by `trim` (the ASCII ones; JS also strips
some Unicode space characters, which this model omits). -/
def isWsChar (c : Char) : Bool := c == ' ' || c == '\t' || c == '\n' || c == '\r'

/-- Remove trailing whitespace. -/
def trimEnd : List Char → List Char
  | [] => []
  | c :: r =>
    match trimEnd r with
    | [] => if isWsChar c then [] else [c]
    | x :: xs => c :: x :: xs

/-- Model of `String.prototype.trim`: strip leading and trailing whitespace. -/
def jsTrim (s : String) : String := String.mk (trimEnd (s.data.dropWhile isWsChar))

/-- `validateNonEmptyString` of `src/utils/validation.ts`: the trimmed string
if non-empty, `null` (`none`) otherwise. -/
def validateNonEmptyString (s : String) : Option String :=
  let trimmed := jsTrim s
  if trimmed.length > 0 then some trimmed else none

/-- `isValidDate` of `src/utils/validation.ts`.  A millisecond timestamp
always models a `Date` with a non-NaN internal value, so this is constantly
`true` in the embedding (`NaN` dates are not representable). -/
def isValidDate (_d : Int) : Bool := true

/-- The "validate if provided, else keep the existing value" pattern shared
by the string fields of `updateTask`/`updateCourse` (`if (updates.x !==
undefined) { validate } else { keep }`). -/
def validateField (current : String) (upd : Option String) (errMsg : String) :
    Except Err String :=
  match upd with
  | none => .ok current
  | some v =>
    match validateNonEmptyString v with
    | none => .error (.validation errMsg)
    | some t => .ok t

/-- The same pattern for the `deadline` field of `updateTask`. -/
def validateDeadline (current : Int) (upd : Option Int) : Except Err Int :=
  match upd with
  | none => .ok current
  | some d =>
    if !isValidDate d then .error (.validation "Deadline must be a valid date")
    else .ok d

theorem validateNonEmptyString_some {s v : String}
    (h : validateNonEmptyString s = some v) : v = jsTrim s := by
  unfold validateNonEmptyString at h
  by_cases hl : (jsTrim s).length > 0
  · rw [if_pos hl] at h
    injection h with h2
    exact h2.symm
  · rw [if_neg hl] at h; cases h

theorem validateField_error {current : String} {upd : Option String}
    {errMsg : String} {e : Err}
    (h : validateField current upd errMsg = .error e) : e.isValidation = true := by
  unfold validateField at h
  cases upd with
  | none => exact Except.noConfusion h
  | some v =>
    dsimp only at h
    cases hv : validateNonEmptyString v with
    | none =>
      rw [hv] at h
      injection h with h2
      subst h2
      rfl
    | some t =>
      rw [hv] at h
      exact Except.noConfusion h

theorem validateField_ok {current : String} {upd : Option String}
    {errMsg v : String} (h : validateField current upd errMsg = .ok v) :
    (upd = none ∧ v = current) ∨ (∃ w, upd = some w ∧ v = jsTrim w) := by
  unfold validateField at h
  cases upd with
  | none =>
    injection h with h2
    exact Or.inl ⟨rfl, h2.symm⟩
  | some w =>
    dsimp only at h
    cases hv : validateNonEmptyString w with
    | none => rw [hv] at h; exact Except.noConfusion h
    | some t =>
      rw [hv] at h
      injection h with h2
      exact Or.inr ⟨w, rfl, h2 ▸ (validateNonEmptyString_some hv)⟩

theorem validateDeadline_eq (current : Int) (upd : Option Int) :
    validateDeadline current upd = .ok (upd.getD current) := by
  unfold validateDeadline
  cases upd with
  | none => rfl
  | some d => simp [isValidDate]

/-! ## Data model (`src/models/types.ts`) -/

/-- A `Task` record.  `completedAt` is the optional completion timestamp. -/
structure Task where
  id : String
  courseId : String
  description : String
  deadline : Int
  completed : Bool
  completedAt : Option Int
  createdAt : Int
deriving DecidableEq

/-- A `Course` record. -/
structure Course where
  id : String
  name : String
  department : String
  createdAt : Int
deriving DecidableEq

/-- A `Partial<Task>` argument to `updateTask`: `none` = property absent
(or explicitly `undefined`, which the source treats identically via its
`!== undefined` guards).  `id`/`createdAt` entries would be ignored by the
source and are omitted. -/
structure TaskUpdates where
  description : Option String := none
  deadline : Option Int := none
  courseId : Option String := none
  completed : Option Bool := none
  completedAt : Option Int := none
deriving DecidableEq

/-- A `Partial<Course>` argument to `updateCourse` (ignored fields omitted). -/
structure CourseUpdates where
  name : Option String := none
  department : Option String := none
deriving DecidableEq

/-! ## `TaskService` (`src/services/TaskService.ts`)

Each mutating method ends with a `storage.save` call; its outcome is the
`so : Option String` argument (`none` = success, `some msg` = `StorageError`
with message `msg`).  `generateUUID()` and `new Date()` results are the
`newId`/`now` arguments. -/

namespace TaskService

/-- The in-memory state of a `TaskService`: the `tasks` map. -/
structure State where
  tasks : List (String × Task)
deriving DecidableEq

/-- `getTask`. -/
def getTask (s : State) (id : String) : Option Task := mget s.tasks id

/-- `getAllTasks`. -/
def getAllTasks (s : State) : List Task := mvalues s.tasks

/-- `getTasksByCourse`. -/
def getTasksByCourse (s : State) (courseId : String) : List Task :=
  (mvalues s.tasks).filter (fun t => t.courseId == courseId)

/-- `getTasksForWeek`. -/
def getTasksForWeek (s : State) (weekNumber year : Int) : List Task :=
  (mvalues s.tasks).filter (fun t => isDateInWeek t.deadline weekNumber year)

/-- `getOverdueTasks`. -/
def getOverdueTasks (s : State) (now : Int) : List Task :=
  (mvalues s.tasks).filter (fun t => !t.completed && t.deadline < now)

/-- `createTask`. -/
def createTask (s : State) (courseId description : String) (deadline : Int)
    (newId : String) (now : Int) (so : Option String) : Except Err Task × State :=
  match validateNonEmptyString description with
  | none => (.error (.validation "Task description cannot be empty or whitespace only"), s)
  | some validatedDescription =>
    if !isValidDate deadline then
      (.error (.validation "Deadline must be a valid date"), s)
    else
      match validateNonEmptyString courseId with
      | none => (.error (.validation "Course ID cannot be empty"), s)
      | some validatedCourseId =>
        let task : Task :=
          { id := newId, courseId := validatedCourseId,
            description := validatedDescription, deadline := deadline,
            completed := false, completedAt := none, createdAt := now }
        let s' : State := ⟨mset s.tasks task.id task⟩
        match so with
        | none => (.ok task, s')
        | some msg =>
          (.error (.validation ("Failed to save task: " ++ msg)),
           ⟨mdel s'.tasks task.id⟩)

/-- `updateTask`. -/
def updateTask (s : State) (id : String) (updates : TaskUpdates)
    (so : Option String) : Except Err Task × State :=
  match mget s.tasks id with
  | none =>
    (.error (.validation ("Task with ID \"" ++ id ++ "\" not found")), s)
  | some existingTask =>
    match validateField existingTask.description updates.description
        "Task description cannot be empty or whitespace only" with
    | .error e => (.error e, s)
    | .ok validatedDescription =>
      match validateDeadline existingTask.deadline updates.deadline with
      | .error e => (.error e, s)
      | .ok validatedDeadline =>
        match validateField existingTask.courseId updates.courseId
            "Course ID cannot be empty" with
        | .error e => (.error e, s)
        | .ok validatedCourseId =>
          let updatedTask : Task :=
            { existingTask with
              courseId := validatedCourseId,
              description := validatedDescription,
              deadline := validatedDeadline,
              completed := updates.completed.getD existingTask.completed,
              completedAt :=
                match updates.completedAt with
                | some v => some v
                | none => existingTask.completedAt }
          let s' : State := ⟨mset s.tasks id updatedTask⟩
          match so with
          | none => (.ok updatedTask, s')
          | some msg =>
            (.error (.validation ("Failed to save task: " ++ msg)),
             ⟨mset s'.tasks id existingTask⟩)

/-- `deleteTask`. -/
def deleteTask (s : State) (id : String) (so : Option String) :
    Except Err Unit × State :=
  match mget s.tasks id with
  | none =>
    (.error (.notFound ("Task with ID \"" ++ id ++ "\" not found")), s)
  | some existingTask =>
    let s' : State := ⟨mdel s.tasks id⟩
    match so with
    | none => (.ok (), s')
    | some msg => (.error (.storage msg), ⟨mset s'.tasks id existingTask⟩)

/-- `markComplete`. -/
def markComplete (s : State) (id : String) (now : Int) (so : Option String) :
    Except Err Task × State :=
  match mget s.tasks id with
  | none =>
    (.error (.notFound ("Task with ID \"" ++ id ++ "\" not found")), s)
  | some existingTask =>
    let updatedTask : Task :=
      { existingTask with completed := true, completedAt := some now }
    let s' : State := ⟨mset s.tasks id updatedTask⟩
    match so with
    | none => (.ok updatedTask, s')
    | some msg => (.error (.storage msg), ⟨mset s'.tasks id existingTask⟩)

/-- `markIncomplete`. -/
def markIncomplete (s : State) (id : String) (so : Option String) :
    Except Err Task × State :=
  match mget s.tasks id with
  | none =>
    (.error (.notFound ("Task with ID \"" ++ id ++ "\" not found")), s)
  | some existingTask =>
    let updatedTask : Task :=
      { existingTask with completed := false, completedAt := none }
    let s' : State := ⟨mset s.tasks id updatedTask⟩
    match so with
    | none => (.ok updatedTask, s')
    | some msg => (.error (.storage msg), ⟨mset s'.tasks id existingTask⟩)

end TaskService

/-! ## `CourseService` (`src/services/CourseService.ts`)

The optional task-service collaborator of the constructor is modelled by the
flag `hasTaskSvc` plus the task-service state `ts` threaded through the
operations that consult it.  `deleteCourseWithTasks` performs several
`storage.save` calls in sequence; their outcomes are `oracle 0`,
`oracle 1`, …. -/

inductive DeletionStrategy where
  | cascade
  | reassign
deriving DecidableEq

namespace CourseService

/-- The in-memory state of a `CourseService`: the `courses` map. -/
structure State where
  courses : List (String × Course)
deriving DecidableEq

/-- `getCourse`. -/
def getCourse (s : State) (id : String) : Option Course := mget s.courses id

/-- `getAllCourses`. -/
def getAllCourses (s : State) : List Course := mvalues s.courses

/-- `getCoursesByDepartment`. -/
def getCoursesByDepartment (s : State) : List (String × List Course) :=
  (mvalues s.courses).foldl
    (fun grouped course =>
      let departmentCourses := (mget grouped course.department).getD []
      mset grouped course.department (departmentCourses ++ [course]))
    []

/-- `courseExists`. -/
def courseExists (s : State) (name department : String) : Bool :=
  let normalizedName := jsTrim name
  let normalizedDepartment := jsTrim department
  s.courses.any (fun p =>
    p.2.name == normalizedName && p.2.department == normalizedDepartment)

/-- `createCourse`. -/
def createCourse (s : State) (name department : String) (newId : String)
    (now : Int) (so : Option String) : Except Err Course × State :=
  match validateNonEmptyString name with
  | none => (.error (.validation "Course name cannot be empty or whitespace only"), s)
  | some validatedName =>
    match validateNonEmptyString department with
    | none => (.error (.validation "Department cannot be empty or whitespace only"), s)
    | some validatedDepartment =>
      if courseExists s validatedName validatedDepartment then
        (.error (.validation ("Course \"" ++ validatedName
          ++ "\" already exists in department \"" ++ validatedDepartment ++ "\"")), s)
      else
        let course : Course :=
          { id := newId, name := validatedName,
            department := validatedDepartment, createdAt := now }
        let s' : State := ⟨mset s.courses course.id course⟩
        match so with
        | none => (.ok course, s')
        | some msg =>
          (.error (.validation ("Failed to save course: " ++ msg)),
           ⟨mdel s'.courses course.id⟩)

/-- `updateCourse`. -/
def updateCourse (s : State) (id : String) (updates : CourseUpdates)
    (so : Option String) : Except Err Course × State :=
  match mget s.courses id with
  | none =>
    (.error (.validation ("Course with ID \"" ++ id ++ "\" not found")), s)
  | some existingCourse =>
    match validateField existingCourse.name updates.name
        "Course name cannot be empty or whitespace only" with
    | .error e => (.error e, s)
    | .ok validatedName =>
      match validateField existingCourse.department updates.department
          "Department cannot be empty or whitespace only" with
      | .error e => (.error e, s)
      | .ok validatedDepartment =>
        if (validatedName ≠ existingCourse.name
              ∨ validatedDepartment ≠ existingCourse.department)
            ∧ courseExists s validatedName validatedDepartment then
          (.error (.validation ("Course \"" ++ validatedName
            ++ "\" already exists in department \"" ++ validatedDepartment ++ "\"")), s)
        else
          let updatedCourse : Course :=
            { existingCourse with
              name := validatedName, department := validatedDepartment }
          let s' : State := ⟨mset s.courses id updatedCourse⟩
          match so with
          | none => (.ok updatedCourse, s')
          | some msg =>
            (.error (.validation ("Failed to save course: " ++ msg)),
             ⟨mset s'.courses id existingCourse⟩)

/-- `deleteCourse`. -/
def deleteCourse (s : State) (id : String) (so : Option String) :
    Except Err Unit × State :=
  match mget s.courses id with
  | none =>
    (.error (.notFound ("Course with ID \"" ++ id ++ "\" not found")), s)
  | some existingCourse =>
    let s' : State := ⟨mdel s.courses id⟩
    match so with
    | none => (.ok (), s')
    | some msg => (.error (.storage msg), ⟨mset s'.courses id existingCourse⟩)

/-- `hasAssociatedTasks`. -/
def hasAssociatedTasks (hasTaskSvc : Bool) (ts : TaskService.State) (id : String) :
    Bool :=
  if !hasTaskSvc then false
  else (TaskService.getTasksByCourse ts id).length > 0

/-- The `cascade` loop of `deleteCourseWithTasks`: delete every associated
task, stopping at the first failure.  Returns the result, the task state and
the number of save outcomes consumed. -/
def cascadeSteps (oracle : Nat → Option String) :
    TaskService.State → Nat → List Task → Except Err Unit × TaskService.State × Nat
  | ts, i, [] => (.ok (), ts, i)
  | ts, i, task :: rest =>
    match TaskService.deleteTask ts task.id (oracle i) with
    | (.ok _, ts') => cascadeSteps oracle ts' (i + 1) rest
    | (.error e, ts') =>
      (.error (.generic ("Failed to delete task " ++ task.id ++ ": " ++ e.message)),
       ts', i + 1)

/-- The `reassign` loop of `deleteCourseWithTasks`: re-point every associated
task's `courseId` at `targetCourseId`, stopping at the first failure. -/
def reassignSteps (oracle : Nat → Option String) (targetCourseId : String) :
    TaskService.State → Nat → List Task → Except Err Unit × TaskService.State × Nat
  | ts, i, [] => (.ok (), ts, i)
  | ts, i, task :: rest =>
    match TaskService.updateTask ts task.id { courseId := some targetCourseId }
        (oracle i) with
    | (.ok _, ts') => reassignSteps oracle targetCourseId ts' (i + 1) rest
    | (.error e, ts') =>
      (.error (.generic ("Failed to reassign task " ++ task.id ++ ": " ++ e.message)),
       ts', i + 1)

/-- `deleteCourseWithTasks`.  `targetCourseId = none` models an omitted
argument; the source's `if (!targetCourseId)` also treats the empty string as
missing. -/
def deleteCourseWithTasks (hasTaskSvc : Bool) (s : State) (ts : TaskService.State)
    (id : String) (strategy : DeletionStrategy) (targetCourseId : Option String)
    (oracle : Nat → Option String) :
    Except Err Unit × State × TaskService.State :=
  match mget s.courses id with
  | none =>
    (.error (.notFound ("Course with ID \"" ++ id ++ "\" not found")), s, ts)
  | some _ =>
    if !hasTaskSvc then
      let r := deleteCourse s id (oracle 0)
      (r.1, r.2, ts)
    else
      let associatedTasks := TaskService.getTasksByCourse ts id
      match strategy with
      | .cascade =>
        match cascadeSteps oracle ts 0 associatedTasks with
        | (.error e, ts', _) => (.error e, s, ts')
        | (.ok _, ts', used) =>
          let r := deleteCourse s id (oracle used)
          (r.1, r.2, ts')
      | .reassign =>
        if targetCourseId = none ∨ targetCourseId = some "" then
          (.error (.validation "Target course ID is required for reassignment strategy"),
           s, ts)
        else
          match targetCourseId with
          | none =>
            (.error (.validation "Target course ID is required for reassignment strategy"),
             s, ts)
          | some target =>
            match mget s.courses target with
            | none =>
              (.error (.notFound ("Target course with ID \"" ++ target ++ "\" not found")),
               s, ts)
            | some _ =>
              if target = id then
                (.error (.validation "Cannot reassign tasks to the course being deleted"),
                 s, ts)
              else
                match reassignSteps oracle target ts 0 associatedTasks with
                | (.error e, ts', _) => (.error e, s, ts')
                | (.ok _, ts', used) =>
                  let r := deleteCourse s id (oracle used)
                  (r.1, r.2, ts')

end CourseService

/-! ## `StatisticsService` (`src/services/StatisticsService.ts`) -/

namespace StatisticsService

/-- `DepartmentStats` of `src/models/types.ts`. -/
structure DepartmentStats where
  department : String
  totalTasks : Nat
  completedTasks : Nat
deriving DecidableEq

/-- `CourseStats` of `src/models/types.ts`. -/
structure CourseStats where
  courseId : String
  courseName : String
  totalTasks : Nat
  completedTasks : Nat
deriving DecidableEq

/-- `WeeklyStatistics` of `src/models/types.ts`. -/
structure WeeklyStatistics where
  weekNumber : Int
  year : Int
  totalTasks : Nat
  completedTasks : Nat
  completionPercentage : Nat
  overdueTasks : Nat
  statsByDepartment : List (String × DepartmentStats)
  statsByCourse : List (String × CourseStats)
deriving DecidableEq

/-- `Math.round((completed / total) * 100)` for `total > 0`, modelled in
exact rational arithmetic: `⌊100·c/t + 1/2⌋` (JS `Math.round` rounds half-up). -/
def roundPct (c t : Nat) : Nat := (200 * c + t) / (2 * t)

/-- `calculateDepartmentStats`: group the week's tasks by the department of
their (resolvable) course; tasks with dangling course references are
silently skipped. -/
def calculateDepartmentStats (cs : CourseService.State) (tasks : List Task) :
    List (String × DepartmentStats) :=
  tasks.foldl
    (fun departmentMap task =>
      match CourseService.getCourse cs task.courseId with
      | none => departmentMap
      | some course =>
        let department := course.department
        let stats := (mget departmentMap department).getD
          { department := department, totalTasks := 0, completedTasks := 0 }
        mset departmentMap department
          { stats with
            totalTasks := stats.totalTasks + 1,
            completedTasks := stats.completedTasks + (if task.completed then 1 else 0) })
    []

/-- `calculateCourseStats`: group the week's tasks by course id, skipping
dangling references. -/
def calculateCourseStats (cs : CourseService.State) (tasks : List Task) :
    List (String × CourseStats) :=
  tasks.foldl
    (fun courseMap task =>
      match CourseService.getCourse cs task.courseId with
      | none => courseMap
      | some course =>
        let stats := (mget courseMap task.courseId).getD
          { courseId := course.id, courseName := course.name,
            totalTasks := 0, completedTasks := 0 }
        mset courseMap task.courseId
          { stats with
            totalTasks := stats.totalTasks + 1,
            completedTasks := stats.completedTasks + (if task.completed then 1 else 0) })
    []

/-- `getWeeklyStatistics`. -/
def getWeeklyStatistics (ts : TaskService.State) (cs : CourseService.State)
    (weekNumber year : Int) (now : Int) : WeeklyStatistics :=
  let weekTasks := TaskService.getTasksForWeek ts weekNumber year
  let totalTasks := weekTasks.length
  let completedTasks := (weekTasks.filter (fun t => t.completed)).length
  let completionPercentage :=
    if totalTasks > 0 then roundPct completedTasks totalTasks else 0
  let overdueTasks :=
    (weekTasks.filter (fun t => !t.completed && t.deadline < now)).length
  { weekNumber := weekNumber, year := year,
    totalTasks := totalTasks, completedTasks := completedTasks,
    completionPercentage := completionPercentage, overdueTasks := overdueTasks,
    statsByDepartment := calculateDepartmentStats cs weekTasks,
    statsByCourse := calculateCourseStats cs weekTasks }

end StatisticsService

/-! ## `TrackerService` (`src/services/TrackerService.ts`)

The coordinator wires a `CourseService` (with the task collaborator present)
and a `TaskService` over one storage service; the operations relevant to the
cross-entity invariants are embedded here. -/

namespace TrackerService

/-- `TrackerService.createTask`: validate that the course exists, then
delegate to `TaskService.createTask`. -/
def createTask (cs : CourseService.State) (ts : TaskService.State)
    (courseId description : String) (deadline : Int) (newId : String)
    (now : Int) (so : Option String) : Except Err Task × TaskService.State :=
  match CourseService.getCourse cs courseId with
  | none =>
    (.error (.validation ("Course with ID \"" ++ courseId ++ "\" not found")), ts)
  | some _ => TaskService.createTask ts courseId description deadline newId now so

/-- `TrackerService.updateTask`: if a (truthy, i.e. non-empty) `courseId` is
being updated, validate that the new course exists, then delegate. -/
def updateTask (cs : CourseService.State) (ts : TaskService.State)
    (id : String) (updates : TaskUpdates) (so : Option String) :
    Except Err Task × TaskService.State :=
  match updates.courseId with
  | some cid =>
    if cid ≠ "" then
      match CourseService.getCourse cs cid with
      | none =>
        (.error (.validation ("Course with ID \"" ++ cid ++ "\" not found")), ts)
      | some _ => TaskService.updateTask ts id updates so
    else TaskService.updateTask ts id updates so
  | none => TaskService.updateTask ts id updates so

end TrackerService

/-! ## Association-map lemmas -/

theorem mget_cons (k0 : String) (v0 : α) (r : List (String × α)) (k : String) :
    mget ((k0, v0) :: r) k = if k0 = k then some v0 else mget r k := rfl

theorem mget_mset_self (m : List (String × α)) (k : String) (v : α) :
    mget (mset m k v) k = some v := by
  induction m with
  | nil => simp [mset, mget]
  | cons p r ih =>
    obtain ⟨k0, v0⟩ := p
    by_cases h : k0 = k
    · simp [mset, h, mget]
    · simp [mset, h, mget, ih]

theorem mget_mset_ne (m : List (String × α)) {k k' : String} (v : α)
    (h : k' ≠ k) : mget (mset m k v) k' = mget m k' := by
  induction m with
  | nil =>
    have hkk : ¬ k = k' := fun hh => h hh.symm
    simp [mset, mget_cons, hkk, mget]
  | cons p r ih =>
    obtain ⟨k0, v0⟩ := p
    by_cases hk : k0 = k
    · subst hk
      have hkk : ¬ k0 = k' := fun hh => h hh.symm
      simp [mset, mget_cons, hkk]
    · simp only [mset, if_neg hk, mget_cons]
      by_cases hk' : k0 = k'
      · simp [hk']
      · simp [hk', ih]

theorem mset_eq_of_mget {m : List (String × α)} {k : String} {v : α}
    (h : mget m k = some v) : mset m k v = m := by
  induction m with
  | nil => simp [mget] at h
  | cons p r ih =>
    obtain ⟨k0, v0⟩ := p
    by_cases hk : k0 = k
    · subst hk
      rw [mget_cons, if_pos rfl] at h
      obtain rfl : v0 = v := by injection h
      simp [mset]
    · rw [mget_cons, if_neg hk] at h
      simp [mset, hk, ih h]

theorem mset_mset (m : List (String × α)) (k : String) (u v : α) :
    mset (mset m k u) k v = mset m k v := by
  induction m with
  | nil => simp [mset]
  | cons p r ih =>
    obtain ⟨k0, v0⟩ := p
    by_cases hk : k0 = k
    · subst hk; simp [mset]
    · simp [mset, hk, ih]

theorem mget_eq_none_iff (m : List (String × α)) (k : String) :
    mget m k = none ↔ k ∉ m.map Prod.fst := by
  induction m with
  | nil => simp [mget]
  | cons p r ih =>
    obtain ⟨k0, v0⟩ := p
    rw [mget_cons]
    by_cases hk : k0 = k
    · subst hk; simp
    · rw [if_neg hk, ih]
      simp only [List.map_cons, List.mem_cons, not_or]
      constructor
      · intro hnotin
        exact ⟨fun hh => hk hh.symm, hnotin⟩
      · intro hh
        exact hh.2

theorem mdel_eq_self {m : List (String × α)} {k : String}
    (h : mget m k = none) : mdel m k = m := by
  induction m with
  | nil => rfl
  | cons p r ih =>
    obtain ⟨k0, v0⟩ := p
    by_cases hk : k0 = k
    · subst hk; rw [mget_cons, if_pos rfl] at h; simp at h
    · rw [mget_cons, if_neg hk] at h
      simp [mdel, hk, ih h]

theorem mset_append_of_none {m : List (String × α)} {k : String} (v : α)
    (h : mget m k = none) : mset m k v = m ++ [(k, v)] := by
  induction m with
  | nil => rfl
  | cons p r ih =>
    obtain ⟨k0, v0⟩ := p
    by_cases hk : k0 = k
    · subst hk; rw [mget_cons, if_pos rfl] at h; simp at h
    · rw [mget_cons, if_neg hk] at h
      simp [mset, hk, ih h]

theorem mdel_append (a b : List (String × α)) (k : String) :
    mdel (a ++ b) k = mdel a k ++ mdel b k := by
  induction a with
  | nil => rfl
  | cons p r ih =>
    obtain ⟨k0, v0⟩ := p
    by_cases hk : k0 = k <;> simp [mdel, hk, ih]

theorem mdel_mset_of_none {m : List (String × α)} {k : String} (v : α)
    (h : mget m k = none) : mdel (mset m k v) k = m := by
  rw [mset_append_of_none v h, mdel_append, mdel_eq_self h]
  simp [mdel]

theorem mget_mdel_ne (m : List (String × α)) {k k' : String} (h : k' ≠ k) :
    mget (mdel m k) k' = mget m k' := by
  induction m with
  | nil => rfl
  | cons p r ih =>
    obtain ⟨k0, v0⟩ := p
    by_cases hk : k0 = k
    · subst hk
      have hkk : ¬ k0 = k' := fun hh => h hh.symm
      rw [show mdel ((k0, v0) :: r) k0 = mdel r k0 from by simp [mdel]]
      rw [ih, mget_cons, if_neg hkk]
    · simp only [mdel, if_neg hk, mget_cons]
      by_cases hk' : k0 = k' <;> simp [hk', ih]

theorem mget_mdel_self (m : List (String × α)) (k : String) :
    mget (mdel m k) k = none := by
  induction m with
  | nil => rfl
  | cons p r ih =>
    obtain ⟨k0, v0⟩ := p
    by_cases hk : k0 = k <;> simp [mdel, hk, mget_cons, ih]

theorem keysNodup_cons {k0 : String} {v0 : α} {r : List (String × α)} :
    keysNodup ((k0, v0) :: r) ↔ k0 ∉ r.map Prod.fst ∧ keysNodup r := by
  simp [keysNodup]

theorem mget_rollback_del {m : List (String × α)} {k : String} {v : α}
    (h : mget m k = some v) (k' : String) :
    mget (mset (mdel m k) k v) k' = mget m k' := by
  by_cases hk : k' = k
  · subst hk; rw [mget_mset_self, h]
  · rw [mget_mset_ne _ _ hk, mget_mdel_ne _ hk]

theorem perm_rollback_del {m : List (String × α)} {k : String} {v : α}
    (h : mget m k = some v) (hnd : keysNodup m) :
    (mset (mdel m k) k v).Perm m := by
  induction m with
  | nil => simp [mget] at h
  | cons p r ih =>
    obtain ⟨k0, v0⟩ := p
    rw [keysNodup_cons] at hnd
    by_cases hk : k0 = k
    · subst hk
      rw [mget_cons, if_pos rfl] at h
      obtain rfl : v0 = v := by injection h
      have hr : mget r k0 = none := (mget_eq_none_iff r k0).mpr hnd.1
      rw [show mdel ((k0, v0) :: r) k0 = mdel r k0 from by simp [mdel],
        mdel_eq_self hr, mset_append_of_none v0 hr]
      exact List.perm_append_singleton _ _
    · rw [mget_cons, if_neg hk] at h
      rw [show mdel ((k0, v0) :: r) k = (k0, v0) :: mdel r k from by simp [mdel, hk],
        show mset ((k0, v0) :: mdel r k) k v = (k0, v0) :: mset (mdel r k) k v from by
          simp [mset, hk]]
      exact (ih h hnd.2).cons _

/-! ## Trim lemmas -/

theorem trimEnd_cons (c : Char) (r : List Char) :
    trimEnd (c :: r)
      = match trimEnd r with
        | [] => if isWsChar c then [] else [c]
        | x :: xs => c :: x :: xs := rfl

theorem dropWhile_dropWhile (p : Char → Bool) (l : List Char) :
    (l.dropWhile p).dropWhile p = l.dropWhile p := by
  induction l with
  | nil => rfl
  | cons c r ih =>
    by_cases hc : p c
    · simp [List.dropWhile_cons, hc, ih]
    · simp [List.dropWhile_cons, hc]

theorem trimEnd_trimEnd (l : List Char) : trimEnd (trimEnd l) = trimEnd l := by
  induction l with
  | nil => rfl
  | cons c r ih =>
    rw [trimEnd_cons]
    cases h : trimEnd r with
    | nil =>
      by_cases hc : isWsChar c
      · simp [hc, trimEnd]
      · simp [hc, trimEnd_cons, trimEnd]
    | cons x xs =>
      rw [h] at ih
      simp only
      rw [trimEnd_cons, ih]

theorem dropWhile_trimEnd (l : List Char) :
    (trimEnd l).dropWhile isWsChar = trimEnd (l.dropWhile isWsChar) := by
  induction l with
  | nil => rfl
  | cons c r ih =>
    by_cases hc : isWsChar c
    · cases h : trimEnd r with
      | nil =>
        have e1 : trimEnd (c :: r) = [] := by
          rw [trimEnd_cons, h]; simp [hc]
        rw [e1, List.dropWhile_cons, if_pos hc, ← ih, h]
      | cons x xs =>
        have e1 : trimEnd (c :: r) = c :: x :: xs := by
          rw [trimEnd_cons, h]
        rw [e1, ← h, List.dropWhile_cons, List.dropWhile_cons, if_pos hc, if_pos hc, ih]
    · have e0 : (c :: r).dropWhile isWsChar = c :: r := by
        rw [List.dropWhile_cons, if_neg hc]
      rw [e0]
      cases h : trimEnd r with
      | nil =>
        have e1 : trimEnd (c :: r) = [c] := by
          rw [trimEnd_cons, h]; simp [hc]
        rw [e1]
        simp [List.dropWhile_cons, hc, e1]
      | cons x xs =>
        have e1 : trimEnd (c :: r) = c :: x :: xs := by
          rw [trimEnd_cons, h]
        rw [e1]
        simp [List.dropWhile_cons, hc, e1]

theorem jsTrim_idem (s : String) : jsTrim (jsTrim s) = jsTrim s := by
  show String.mk (trimEnd (List.dropWhile isWsChar (trimEnd (s.data.dropWhile isWsChar))))
    = String.mk (trimEnd (s.data.dropWhile isWsChar))
  rw [dropWhile_trimEnd, dropWhile_dropWhile, trimEnd_trimEnd]

theorem length_pos_of_ne_empty {s : String} (h : s ≠ "") : s.length > 0 := by
  cases s with
  | mk dt =>
    cases dt with
    | nil => exact absurd rfl h
    | cons c r => simp [String.length]

/-! ## Membership helpers -/

theorem mget_mem {m : List (String × α)} {k : String} {v : α}
    (h : mget m k = some v) : (k, v) ∈ m := by
  induction m with
  | nil => simp [mget] at h
  | cons p r ih =>
    obtain ⟨k0, v0⟩ := p
    by_cases hk : k0 = k
    · subst hk
      rw [mget_cons, if_pos rfl] at h
      obtain rfl : v0 = v := by injection h
      exact List.mem_cons_self _ _
    · rw [mget_cons, if_neg hk] at h
      exact List.mem_cons_of_mem _ (ih h)

theorem mem_mset {m : List (String × α)} {k : String} {v : α} {p : String × α}
    (h : p ∈ mset m k v) : p ∈ m ∨ p = (k, v) := by
  induction m with
  | nil => simp [mset] at h; right; exact h
  | cons q r ih =>
    obtain ⟨k0, v0⟩ := q
    by_cases hk : k0 = k
    · subst hk
      simp only [mset, if_pos rfl] at h
      rcases List.mem_cons.mp h with hh | hh
      · right; exact hh
      · left; exact List.mem_cons_of_mem _ hh
    · simp only [mset, if_neg hk] at h
      rcases List.mem_cons.mp h with hh | hh
      · left; exact hh ▸ List.mem_cons_self _ _
      · rcases ih hh with h2 | h2
        · left; exact List.mem_cons_of_mem _ h2
        · right; exact h2

theorem mem_mdel {m : List (String × α)} {k : String} {p : String × α}
    (h : p ∈ mdel m k) : p ∈ m := by
  induction m with
  | nil => simp [mdel] at h
  | cons q r ih =>
    obtain ⟨k0, v0⟩ := q
    by_cases hk : k0 = k
    · simp only [mdel, if_pos hk] at h
      exact List.mem_cons_of_mem _ (ih h)
    · simp only [mdel, if_neg hk] at h
      rcases List.mem_cons.mp h with hh | hh
      · exact hh ▸ List.mem_cons_self _ _
      · exact List.mem_cons_of_mem _ (ih hh)

theorem mget_of_mem_nodup {m : List (String × α)} (hnd : keysNodup m)
    {p : String × α} (h : p ∈ m) : mget m p.1 = some p.2 := by
  induction m with
  | nil => simp at h
  | cons q r ih =>
    obtain ⟨k0, v0⟩ := q
    rw [keysNodup_cons] at hnd
    rcases List.mem_cons.mp h with hh | hh
    · subst hh
      rw [mget_cons, if_pos rfl]
    · rw [mget_cons]
      by_cases hk : k0 = p.1
      · exfalso
        apply hnd.1
        rw [hk]
        exact List.mem_map_of_mem Prod.fst hh
      · rw [if_neg hk]
        exact ih hnd.2 hh

/-! ## The `completedAt` ↔ `completed` invariant (claim C1) -/

/-- The spec's task invariant: `completedAt` is defined iff `completed`. -/
def completedAtConsistent (t : Task) : Bool := t.completedAt.isSome == t.completed

/-- The invariant, over every task of a `TaskService` state. -/
def stateConsistent (s : TaskService.State) : Prop :=
  ∀ p ∈ s.tasks, completedAtConsistent p.2 = true

theorem consistent_mset {m : List (String × Task)} {k : String} {t : Task}
    (hm : ∀ p ∈ m, completedAtConsistent p.2 = true)
    (ht : completedAtConsistent t = true) :
    ∀ p ∈ mset m k t, completedAtConsistent p.2 = true := by
  intro p hp
  rcases mem_mset hp with hh | hh
  · exact hm p hh
  · rw [hh]; exact ht

/-! ## Claim C8 — completion round-trip -/

/-- C8: for every task present in the collection, a successful `markComplete`
followed by a successful `markIncomplete` yields the task with
`completed = false`, `completedAt` cleared, and `id`, `courseId`,
`description`, `deadline` and `createdAt` unchanged (expressed by the record
update `{ t with completed := false, completedAt := none }`, which fixes all
other fields to their original values); the stored entry agrees. -/
theorem claim_C8 (s : TaskService.State) (id : String) (t : Task) (now1 : Int)
    (hget : mget s.tasks id = some t) :
    (TaskService.markIncomplete (TaskService.markComplete s id now1 none).2 id none).1
      = .ok { t with completed := false, completedAt := none } ∧
    mget (TaskService.markIncomplete
        (TaskService.markComplete s id now1 none).2 id none).2.tasks id
      = some { t with completed := false, completedAt := none } := by
  have h1 : (TaskService.markComplete s id now1 none).2
      = ⟨mset s.tasks id { t with completed := true, completedAt := some now1 }⟩ := by
    unfold TaskService.markComplete
    rw [hget]
  rw [h1]
  have h2 : mget (mset s.tasks id { t with completed := true, completedAt := some now1 }) id
      = some { t with completed := true, completedAt := some now1 } := mget_mset_self _ _ _
  unfold TaskService.markIncomplete
  rw [show (⟨mset s.tasks id { t with completed := true, completedAt := some now1 }⟩ :
      TaskService.State).tasks
    = mset s.tasks id { t with completed := true, completedAt := some now1 } from rfl, h2]
  exact ⟨rfl, by rw [show (⟨mset (mset s.tasks id
    { t with completed := true, completedAt := some now1 }) id
    { t with completed := false, completedAt := none }⟩ : TaskService.State).tasks
    = mset (mset s.tasks id { t with completed := true, completedAt := some now1 }) id
      { t with completed := false, completedAt := none } from rfl, mget_mset_self]⟩

/-- A concrete sample task used by several witnesses. -/
def sampleTask : Task :=
  { id := "a", courseId := "c1", description := "hw", deadline := 0,
    completed := false, completedAt := none, createdAt := 0 }

/-- Witness for C8 at a concrete one-task state. -/
theorem claim_C8_witness :
    (TaskService.markIncomplete (TaskService.markComplete
        ⟨[("a", sampleTask)]⟩ "a" 5 none).2 "a" none).1
      = .ok { sampleTask with completed := false, completedAt := none } ∧
    mget (TaskService.markIncomplete (TaskService.markComplete
        ⟨[("a", sampleTask)]⟩ "a" 5 none).2 "a" none).2.tasks "a"
      = some { sampleTask with completed := false, completedAt := none } :=
  claim_C8 ⟨[("a", sampleTask)]⟩ "a" sampleTask 5 (by decide)

/-! ## Claim C10 — operations on a missing id -/

/-- C10 (amended): on an id absent from the collection, `updateTask` returns
a `ValidationError` (not a `NotFoundError`) whose message names the id,
while `deleteTask`, `markComplete` and `markIncomplete` return a
`NotFoundError`; in every case the error is a returned value and the
collection is left exactly unchanged. -/
theorem claim_C10 (s : TaskService.State) (id : String)
    (h : mget s.tasks id = none) :
    (∀ u so, (TaskService.updateTask s id u so).1
        = .error (.validation ("Task with ID \"" ++ id ++ "\" not found")) ∧
      (TaskService.updateTask s id u so).2 = s) ∧
    (∀ so, (TaskService.deleteTask s id so).1
        = .error (.notFound ("Task with ID \"" ++ id ++ "\" not found")) ∧
      (TaskService.deleteTask s id so).2 = s) ∧
    (∀ now so, (TaskService.markComplete s id now so).1
        = .error (.notFound ("Task with ID \"" ++ id ++ "\" not found")) ∧
      (TaskService.markComplete s id now so).2 = s) ∧
    (∀ so, (TaskService.markIncomplete s id so).1
        = .error (.notFound ("Task with ID \"" ++ id ++ "\" not found")) ∧
      (TaskService.markIncomplete s id so).2 = s) := by
  refine ⟨fun u so => ?_, fun so => ?_, fun now so => ?_, fun so => ?_⟩
  · unfold TaskService.updateTask
    rw [h]
    exact ⟨rfl, rfl⟩
  · unfold TaskService.deleteTask
    rw [h]
    exact ⟨rfl, rfl⟩
  · unfold TaskService.markComplete
    rw [h]
    exact ⟨rfl, rfl⟩
  · unfold TaskService.markIncomplete
    rw [h]
    exact ⟨rfl, rfl⟩

/-- Counterexample to C10 as stated: on a missing id, `updateTask` returns a
`ValidationError`, not a `NotFoundError`. -/
theorem claim_C10_cex :
    (TaskService.updateTask ⟨[]⟩ "missing" {} none).1
      = .error (.validation "Task with ID \"missing\" not found") ∧
    Err.isNotFound (.validation "Task with ID \"missing\" not found") = false := by
  exact ⟨rfl, rfl⟩

/-- Witness for C10 on the empty collection and id `"missing"`. -/
theorem claim_C10_witness :
    ((TaskService.updateTask ⟨[]⟩ "missing" {} none).1
        = .error (.validation ("Task with ID \"" ++ "missing" ++ "\" not found"))) ∧
    ((TaskService.deleteTask ⟨[]⟩ "missing" none).1
        = .error (.notFound ("Task with ID \"" ++ "missing" ++ "\" not found"))) ∧
    ((TaskService.markComplete ⟨[]⟩ "missing" 0 none).1
        = .error (.notFound ("Task with ID \"" ++ "missing" ++ "\" not found"))) ∧
    ((TaskService.markIncomplete ⟨[]⟩ "missing" none).1
        = .error (.notFound ("Task with ID \"" ++ "missing" ++ "\" not found"))) := by
  have h := claim_C10 ⟨[]⟩ "missing" (by decide)
  exact ⟨(h.1 {} none).1, (h.2.1 none).1, (h.2.2.1 0 none).1, (h.2.2.2 none).1⟩

/-! ## Claim C5 — duplicate course rejection -/

/-- C5: creating a course whose trimmed `(name, department)` equals (case
sensitively) those of an existing course always fails with a
`ValidationError` and leaves the store — in particular its size —
unchanged. -/
theorem claim_C5 (s : CourseService.State) (cid : String) (c : Course)
    (hc : mget s.courses cid = some c) (name department : String)
    (hn : jsTrim name = c.name) (hd : jsTrim department = c.department)
    (newId : String) (now : Int) (so : Option String) :
    isValidationFailure (CourseService.createCourse s name department newId now so).1
      = true ∧
    (CourseService.createCourse s name department newId now so).2 = s ∧
    (CourseService.createCourse s name department newId now so).2.courses.length
      = s.courses.length := by
  unfold CourseService.createCourse
  cases hvn : validateNonEmptyString name with
  | none => exact ⟨rfl, rfl, rfl⟩
  | some vn =>
    cases hvd : validateNonEmptyString department with
    | none => exact ⟨rfl, rfl, rfl⟩
    | some vd =>
      have hvn' : vn = c.name := (validateNonEmptyString_some hvn).trans hn
      have hvd' : vd = c.department := (validateNonEmptyString_some hvd).trans hd
      have hex : CourseService.courseExists s vn vd = true := by
        unfold CourseService.courseExists
        rw [List.any_eq_true]
        refine ⟨(cid, c), mget_mem hc, ?_⟩
        have h1 : jsTrim c.name = c.name := by rw [← hn, jsTrim_idem]
        have h2 : jsTrim c.department = c.department := by rw [← hd, jsTrim_idem]
        rw [hvn', hvd', h1, h2]
        simp
      dsimp only
      rw [if_pos hex]
      exact ⟨rfl, rfl, rfl⟩

/-- Witness for C5: a duplicate (modulo surrounding whitespace) of a stored
course is rejected. -/
theorem claim_C5_witness :
    isValidationFailure (CourseService.createCourse
        ⟨[("c1", { id := "c1", name := "Math", department := "Science", createdAt := 0 })]⟩
        " Math " "Science" "c2" 7 none).1 = true ∧
    (CourseService.createCourse
        ⟨[("c1", { id := "c1", name := "Math", department := "Science", createdAt := 0 })]⟩
        " Math " "Science" "c2" 7 none).2
      = ⟨[("c1", { id := "c1", name := "Math", department := "Science", createdAt := 0 })]⟩ ∧
    (CourseService.createCourse
        ⟨[("c1", { id := "c1", name := "Math", department := "Science", createdAt := 0 })]⟩
        " Math " "Science" "c2" 7 none).2.courses.length
      = (⟨[("c1", { id := "c1", name := "Math", department := "Science", createdAt := 0 })]⟩ :
          CourseService.State).courses.length :=
  claim_C5
    ⟨[("c1", { id := "c1", name := "Math", department := "Science", createdAt := 0 })]⟩
    "c1" { id := "c1", name := "Math", department := "Science", createdAt := 0 }
    (by decide) " Math " "Science" (by decide) (by decide) "c2" 7 none

/-! ## Claim C4 — coordinator referential integrity -/

/-- Whenever `updateTask` fails, the error is a `ValidationError` and the
in-memory collection is exactly the one before the call (validation failures
do not mutate; a persistence failure is rolled back in place). -/
theorem updateTask_error_shape (ts : TaskService.State) (id : String)
    (u : TaskUpdates) (so : Option String) (e : Err)
    (he : (TaskService.updateTask ts id u so).1 = .error e) :
    e.isValidation = true ∧ (TaskService.updateTask ts id u so).2 = ts := by
  unfold TaskService.updateTask at he ⊢
  cases hm : mget ts.tasks id with
  | none =>
    rw [hm] at he
    dsimp only at he ⊢
    injection he with h2
    subst h2
    exact ⟨rfl, rfl⟩
  | some existingTask =>
    rw [hm] at he
    dsimp only at he ⊢
    cases hd : validateField existingTask.description u.description
        "Task description cannot be empty or whitespace only" with
    | error e2 =>
      rw [hd] at he
      dsimp only at he ⊢
      injection he with h2
      subst h2
      exact ⟨validateField_error hd, rfl⟩
    | ok vDesc =>
      rw [hd] at he
      rw [validateDeadline_eq] at he ⊢
      dsimp only at he ⊢
      cases hc : validateField existingTask.courseId u.courseId
          "Course ID cannot be empty" with
      | error e2 =>
        rw [hc] at he
        dsimp only at he ⊢
        injection he with h2
        subst h2
        exact ⟨validateField_error hc, rfl⟩
      | ok vCid =>
        rw [hc] at he
        dsimp only at he ⊢
        cases hso : so with
        | none =>
          rw [hso] at he
          dsimp only at he
          exact Except.noConfusion he
        | some msg =>
          rw [hso] at he
          dsimp only at he ⊢
          injection he with h2
          subst h2
          refine ⟨rfl, ?_⟩
          show (⟨mset (mset ts.tasks id _) id existingTask⟩ : TaskService.State) = ts
          rw [mset_mset, mset_eq_of_mget hm]

/-- Characterization of a successful `updateTask`: the save succeeded, the
task existed, the returned task merges the validated update onto it (with
`id`/`createdAt` never changing), and the new state stores it in place. -/
theorem updateTask_ok_shape (ts : TaskService.State) (id : String)
    (u : TaskUpdates) (so : Option String) (t : Task)
    (hok : (TaskService.updateTask ts id u so).1 = .ok t) :
    so = none ∧
    ∃ existingTask, mget ts.tasks id = some existingTask ∧
      (TaskService.updateTask ts id u so).2 = ⟨mset ts.tasks id t⟩ ∧
      t.id = existingTask.id ∧ t.createdAt = existingTask.createdAt ∧
      t.deadline = u.deadline.getD existingTask.deadline ∧
      t.completed = u.completed.getD existingTask.completed ∧
      t.completedAt = (match u.completedAt with
        | some v => some v
        | none => existingTask.completedAt) ∧
      ((u.courseId = none ∧ t.courseId = existingTask.courseId) ∨
        ∃ w, u.courseId = some w ∧ t.courseId = jsTrim w) ∧
      ((u.description = none ∧ t.description = existingTask.description) ∨
        ∃ w, u.description = some w ∧ t.description = jsTrim w) := by
  unfold TaskService.updateTask at hok ⊢
  cases hm : mget ts.tasks id with
  | none =>
    rw [hm] at hok
    exact Except.noConfusion hok
  | some existingTask =>
    rw [hm] at hok
    dsimp only at hok ⊢
    cases hd : validateField existingTask.description u.description
        "Task description cannot be empty or whitespace only" with
    | error e2 =>
      rw [hd] at hok
      exact Except.noConfusion hok
    | ok vDesc =>
      rw [hd] at hok
      rw [validateDeadline_eq] at hok ⊢
      dsimp only at hok ⊢
      cases hc : validateField existingTask.courseId u.courseId
          "Course ID cannot be empty" with
      | error e2 =>
        rw [hc] at hok
        exact Except.noConfusion hok
      | ok vCid =>
        rw [hc] at hok
        dsimp only at hok ⊢
        cases hso : so with
        | none =>
          rw [hso] at hok
          dsimp only at hok
          injection hok with h2
          subst h2
          refine ⟨rfl, existingTask, rfl, rfl, rfl, rfl, rfl, rfl, rfl, ?_, ?_⟩
          · rcases validateField_ok hc with ⟨hnone, hsame⟩ | ⟨w, hw, hww⟩
            · exact Or.inl ⟨hnone, hsame⟩
            · exact Or.inr ⟨w, hw, hww⟩
          · rcases validateField_ok hd with ⟨hnone, hsame⟩ | ⟨w, hw, hww⟩
            · exact Or.inl ⟨hnone, hsame⟩
            · exact Or.inr ⟨w, hw, hww⟩
        | some msg =>
          rw [hso] at hok
          exact Except.noConfusion hok

/-- `updateTask` with a provided empty-string `courseId` always fails with a
`ValidationError` (either "task not found" or "Course ID cannot be empty")
and leaves the collection unchanged. -/
theorem updateTask_empty_cid (ts : TaskService.State) (id : String)
    (u : TaskUpdates) (so : Option String) (hu : u.courseId = some "") :
    isValidationFailure (TaskService.updateTask ts id u so).1 = true ∧
    (TaskService.updateTask ts id u so).2 = ts := by
  cases hr : (TaskService.updateTask ts id u so).1 with
  | ok t =>
    exfalso
    obtain ⟨-, existingTask, -, -, -, -, -, -, -, hcid, -⟩ :=
      updateTask_ok_shape ts id u so t hr
    rcases hcid with ⟨hnone, -⟩ | ⟨w, hw, -⟩
    · rw [hu] at hnone
      exact Option.noConfusion hnone
    · rw [hu] at hw
      injection hw with h2
      subst h2
      -- the ok result would have required validateNonEmptyString "" to succeed
      exact absurd hr (by
        unfold TaskService.updateTask
        cases hm : mget ts.tasks id with
        | none => exact fun hh => Except.noConfusion hh
        | some ex =>
          dsimp only
          cases hdd : validateField ex.description u.description
              "Task description cannot be empty or whitespace only" with
          | error e2 => exact fun hh => Except.noConfusion hh
          | ok vDesc =>
            rw [validateDeadline_eq]
            dsimp only
            rw [show validateField ex.courseId u.courseId "Course ID cannot be empty"
                = .error (.validation "Course ID cannot be empty") from by
              unfold validateField
              rw [hu]
              rfl]
            exact fun hh => Except.noConfusion hh)
  | error e =>
    have hsh := updateTask_error_shape ts id u so e hr
    refine ⟨?_, hsh.2⟩
    cases e with
    | validation m => rfl
    | notFound m => exact absurd hsh.1 (by simp [Err.isValidation])
    | storage m => exact absurd hsh.1 (by simp [Err.isValidation])
    | generic m => exact absurd hsh.1 (by simp [Err.isValidation])

/-- C4: `TrackerService.createTask` with a `courseId` that does not resolve
returns a `ValidationError` and creates no task, and
`TrackerService.updateTask` with a provided unresolvable `partial.courseId`
returns a `ValidationError` and leaves the task collection unchanged. -/
theorem claim_C4 (cs : CourseService.State) (ts : TaskService.State) :
    (∀ courseId dsc dl newId now so, mget cs.courses courseId = none →
      (TrackerService.createTask cs ts courseId dsc dl newId now so).1
        = .error (.validation ("Course with ID \"" ++ courseId ++ "\" not found")) ∧
      (TrackerService.createTask cs ts courseId dsc dl newId now so).2 = ts) ∧
    (∀ id u so cid, u.courseId = some cid → mget cs.courses cid = none →
      isValidationFailure (TrackerService.updateTask cs ts id u so).1 = true ∧
      (TrackerService.updateTask cs ts id u so).2 = ts) := by
  constructor
  · intro courseId dsc dl newId now so h
    unfold TrackerService.createTask CourseService.getCourse
    rw [h]
    exact ⟨rfl, rfl⟩
  · intro id u so cid hu hnone
    unfold TrackerService.updateTask
    rw [hu]
    dsimp only
    by_cases hcid : cid = ""
    · subst hcid
      rw [if_neg (fun hh => hh rfl)]
      exact updateTask_empty_cid ts id u so hu
    · rw [if_pos hcid]
      unfold CourseService.getCourse
      rw [hnone]
      exact ⟨rfl, rfl⟩


/-- Witness for C4: against an empty course catalog, creating a task for
course `"nope"` and updating a task's `courseId` to `"nope"` both fail. -/
theorem claim_C4_witness :
    ((TrackerService.createTask ⟨[]⟩ ⟨[]⟩ "nope" "hw" 0 "t1" 0 none).1
        = .error (.validation ("Course with ID \"" ++ "nope" ++ "\" not found")) ∧
      (TrackerService.createTask ⟨[]⟩ ⟨[]⟩ "nope" "hw" 0 "t1" 0 none).2 = ⟨[]⟩) ∧
    (isValidationFailure (TrackerService.updateTask ⟨[]⟩ ⟨[]⟩ "t1"
        { courseId := some "nope" } none).1 = true ∧
      (TrackerService.updateTask ⟨[]⟩ ⟨[]⟩ "t1"
        { courseId := some "nope" } none).2 = ⟨[]⟩) := by
  have h := claim_C4 ⟨[]⟩ ⟨[]⟩
  exact ⟨h.1 "nope" "hw" 0 "t1" 0 none (by decide),
         h.2 "t1" { courseId := some "nope" } none "nope" rfl (by decide)⟩

/-! ## Claim C1 — the `completedAt` ↔ `completed` invariant -/

theorem createTask_validDate_if (dl : Int) (a b : α) :
    (if !isValidDate dl then a else b) = b := rfl

theorem stateConsistent_single (k : String) (t : Task)
    (h : completedAtConsistent t = true) : stateConsistent ⟨[(k, t)]⟩ := by
  intro p hp
  rw [List.mem_singleton] at hp
  subst hp
  exact h

/-- Counterexample to C1 as stated: starting from a collection satisfying
the invariant, `updateTask` with the partial `{ completed: true }` (no
`completedAt` supplied) produces a task with `completed = true` but
`completedAt` undefined. -/
theorem claim_C1_cex :
    stateConsistent ⟨[("a", sampleTask)]⟩ ∧
    ¬ stateConsistent (TaskService.updateTask ⟨[("a", sampleTask)]⟩ "a"
        { completed := some true } none).2 := by
  constructor
  · intro p hp
    simp only [List.mem_singleton] at hp
    subst hp
    rfl
  · intro hcon
    have h := hcon ("a", { sampleTask with completed := true, completedAt := none })
      (by decide)
    exact absurd h (by decide)

/-- C1 (amended): every task in the collection satisfies "`completedAt` is
defined iff `completed`" after `createTask`, `markComplete`,
`markIncomplete`, `deleteTask`, and after `updateTask` whose partial
supplies neither `completed` nor `completedAt`; an `updateTask` partial
supplying `completed` without `completedAt` (or conversely) can break the
invariant, as the counterexample shows. -/
theorem claim_C1 (s : TaskService.State) (hs : stateConsistent s) :
    (∀ courseId dsc dl newId now so,
      stateConsistent (TaskService.createTask s courseId dsc dl newId now so).2) ∧
    (∀ id now so, stateConsistent (TaskService.markComplete s id now so).2) ∧
    (∀ id so, stateConsistent (TaskService.markIncomplete s id so).2) ∧
    (∀ id so, stateConsistent (TaskService.deleteTask s id so).2) ∧
    (∀ id u so, u.completed = none → u.completedAt = none →
      stateConsistent (TaskService.updateTask s id u so).2) := by
  refine ⟨?_, ?_, ?_, ?_, ?_⟩
  · intro courseId dsc dl newId now so
    unfold TaskService.createTask
    cases hv : validateNonEmptyString dsc with
    | none => exact hs
    | some vd =>
      dsimp only
      rw [createTask_validDate_if]
      cases hvc : validateNonEmptyString courseId with
      | none => exact hs
      | some vc =>
        cases so with
        | none =>
          dsimp only
          refine fun p hp => consistent_mset hs ?_ p hp
          rfl
        | some msg =>
          dsimp only
          refine fun p hp => consistent_mset hs ?_ p (mem_mdel hp)
          rfl
  · intro id now so
    unfold TaskService.markComplete
    cases hm : mget s.tasks id with
    | none => exact hs
    | some ex =>
      have hex : completedAtConsistent ex = true := hs _ (mget_mem hm)
      cases so with
      | none =>
        dsimp only
        refine fun p hp => consistent_mset hs ?_ p hp
        rfl
      | some msg =>
        dsimp only
        refine fun p hp => consistent_mset (consistent_mset hs ?_) hex p hp
        rfl
  · intro id so
    unfold TaskService.markIncomplete
    cases hm : mget s.tasks id with
    | none => exact hs
    | some ex =>
      have hex : completedAtConsistent ex = true := hs _ (mget_mem hm)
      cases so with
      | none =>
        dsimp only
        refine fun p hp => consistent_mset hs ?_ p hp
        rfl
      | some msg =>
        dsimp only
        refine fun p hp => consistent_mset (consistent_mset hs ?_) hex p hp
        rfl
  · intro id so
    unfold TaskService.deleteTask
    cases hm : mget s.tasks id with
    | none => exact hs
    | some ex =>
      have hex : completedAtConsistent ex = true := hs _ (mget_mem hm)
      cases so with
      | none =>
        dsimp only
        exact fun p hp => hs p (mem_mdel hp)
      | some msg =>
        dsimp only
        exact fun p hp => consistent_mset (fun q hq => hs q (mem_mdel hq)) hex p hp
  · intro id u so hcu hca
    cases hr : (TaskService.updateTask s id u so).1 with
    | error e =>
      rw [(updateTask_error_shape s id u so e hr).2]
      exact hs
    | ok t =>
      obtain ⟨-, ex, hm, hst, -, -, -, hcomp, hcompAt, -, -⟩ :=
        updateTask_ok_shape s id u so t hr
      rw [hst]
      have hex : completedAtConsistent ex = true := hs _ (mget_mem hm)
      have ht : completedAtConsistent t = true := by
        unfold completedAtConsistent at hex ⊢
        rw [hcomp, hcompAt, hcu, hca]
        exact hex
      exact consistent_mset hs ht

/-- Witness for the amended C1 at a one-task consistent state. -/
theorem claim_C1_witness :
    stateConsistent (TaskService.markComplete ⟨[("a", sampleTask)]⟩ "a" 4 none).2 ∧
    stateConsistent (TaskService.updateTask ⟨[("a", sampleTask)]⟩ "a"
        { description := some "new text" } none).2 := by
  have h := claim_C1 ⟨[("a", sampleTask)]⟩ (stateConsistent_single "a" sampleTask rfl)
  exact ⟨h.2.1 "a" 4 none,
         h.2.2.2.2 "a" { description := some "new text" } none rfl rfl⟩

/-! ## Claim C2 — rollback on persistence failure -/

/-- C2: when the write-through `storage.save` fails (outcome `some msg`),
every mutating operation of `CourseService` and `TaskService` returns an
error value, and the in-memory collection equals the one before the call:
literally for `create`/`update`/`markComplete`/`markIncomplete` (the
rollback restores entries in place), and up to the lookup function and a
permutation of the entry list for `delete` (the JS `Map` rollback re-inserts
the deleted entry at the end of the iteration order).  Fresh-id hypotheses
reflect the unique-id collaborator contract; `keysNodup` is the JS `Map`
well-formedness of the states. -/
theorem claim_C2 (cs : CourseService.State) (ts : TaskService.State)
    (hnc : keysNodup cs.courses) (hnt : keysNodup ts.tasks) (msg : String) :
    (∀ name dept newId now, mget cs.courses newId = none →
      isFailure (CourseService.createCourse cs name dept newId now (some msg)).1 = true ∧
      (CourseService.createCourse cs name dept newId now (some msg)).2 = cs) ∧
    (∀ id u, isFailure (CourseService.updateCourse cs id u (some msg)).1 = true ∧
      (CourseService.updateCourse cs id u (some msg)).2 = cs) ∧
    (∀ id, isFailure (CourseService.deleteCourse cs id (some msg)).1 = true ∧
      (∀ k, mget (CourseService.deleteCourse cs id (some msg)).2.courses k
        = mget cs.courses k) ∧
      ((CourseService.deleteCourse cs id (some msg)).2.courses).Perm cs.courses) ∧
    (∀ courseId dsc dl newId now, mget ts.tasks newId = none →
      isFailure (TaskService.createTask ts courseId dsc dl newId now (some msg)).1 = true ∧
      (TaskService.createTask ts courseId dsc dl newId now (some msg)).2 = ts) ∧
    (∀ id u, isFailure (TaskService.updateTask ts id u (some msg)).1 = true ∧
      (TaskService.updateTask ts id u (some msg)).2 = ts) ∧
    (∀ id, isFailure (TaskService.deleteTask ts id (some msg)).1 = true ∧
      (∀ k, mget (TaskService.deleteTask ts id (some msg)).2.tasks k = mget ts.tasks k) ∧
      ((TaskService.deleteTask ts id (some msg)).2.tasks).Perm ts.tasks) ∧
    (∀ id now, isFailure (TaskService.markComplete ts id now (some msg)).1 = true ∧
      (TaskService.markComplete ts id now (some msg)).2 = ts) ∧
    (∀ id, isFailure (TaskService.markIncomplete ts id (some msg)).1 = true ∧
      (TaskService.markIncomplete ts id (some msg)).2 = ts) := by
  refine ⟨?_, ?_, ?_, ?_, ?_, ?_, ?_, ?_⟩
  · -- createCourse
    intro name dept newId now hfresh
    unfold CourseService.createCourse
    cases hv : validateNonEmptyString name with
    | none => exact ⟨rfl, rfl⟩
    | some vn =>
      cases hvd : validateNonEmptyString dept with
      | none => exact ⟨rfl, rfl⟩
      | some vd =>
        dsimp only
        by_cases hex : CourseService.courseExists cs vn vd = true
        · rw [if_pos hex]
          exact ⟨rfl, rfl⟩
        · rw [if_neg hex]
          dsimp only
          refine ⟨rfl, ?_⟩
          show (⟨mdel (mset cs.courses newId _) newId⟩ : CourseService.State) = cs
          rw [mdel_mset_of_none _ hfresh]
  · -- updateCourse
    intro id u
    unfold CourseService.updateCourse
    cases hm : mget cs.courses id with
    | none => exact ⟨rfl, rfl⟩
    | some ex =>
      dsimp only
      cases hn : validateField ex.name u.name
          "Course name cannot be empty or whitespace only" with
      | error e => exact ⟨rfl, rfl⟩
      | ok vn =>
        dsimp only
        cases hdp : validateField ex.department u.department
            "Department cannot be empty or whitespace only" with
        | error e => exact ⟨rfl, rfl⟩
        | ok vd =>
          dsimp only
          by_cases hdup : (vn ≠ ex.name ∨ vd ≠ ex.department)
              ∧ CourseService.courseExists cs vn vd = true
          · rw [if_pos hdup]
            exact ⟨rfl, rfl⟩
          · rw [if_neg hdup]
            dsimp only
            refine ⟨rfl, ?_⟩
            show (⟨mset (mset cs.courses id _) id ex⟩ : CourseService.State) = cs
            rw [mset_mset, mset_eq_of_mget hm]
  · -- deleteCourse
    intro id
    unfold CourseService.deleteCourse
    cases hm : mget cs.courses id with
    | none => exact ⟨rfl, fun k => rfl, List.Perm.refl _⟩
    | some ex =>
      dsimp only
      exact ⟨rfl, mget_rollback_del hm, perm_rollback_del hm hnc⟩
  · -- createTask
    intro courseId dsc dl newId now hfresh
    unfold TaskService.createTask
    cases hv : validateNonEmptyString dsc with
    | none => exact ⟨rfl, rfl⟩
    | some vd =>
      dsimp only
      rw [createTask_validDate_if]
      cases hvc : validateNonEmptyString courseId with
      | none => exact ⟨rfl, rfl⟩
      | some vc =>
        dsimp only
        refine ⟨rfl, ?_⟩
        show (⟨mdel (mset ts.tasks newId _) newId⟩ : TaskService.State) = ts
        rw [mdel_mset_of_none _ hfresh]
  · -- updateTask
    intro id u
    cases hr : (TaskService.updateTask ts id u (some msg)).1 with
    | ok t =>
      obtain ⟨hso, -⟩ := updateTask_ok_shape ts id u (some msg) t hr
      exact Option.noConfusion hso
    | error e =>
      exact ⟨rfl, (updateTask_error_shape ts id u (some msg) e hr).2⟩
  · -- deleteTask
    intro id
    unfold TaskService.deleteTask
    cases hm : mget ts.tasks id with
    | none => exact ⟨rfl, fun k => rfl, List.Perm.refl _⟩
    | some ex =>
      dsimp only
      exact ⟨rfl, mget_rollback_del hm, perm_rollback_del hm hnt⟩
  · -- markComplete
    intro id now
    unfold TaskService.markComplete
    cases hm : mget ts.tasks id with
    | none => exact ⟨rfl, rfl⟩
    | some ex =>
      dsimp only
      refine ⟨rfl, ?_⟩
      show (⟨mset (mset ts.tasks id _) id ex⟩ : TaskService.State) = ts
      rw [mset_mset, mset_eq_of_mget hm]
  · -- markIncomplete
    intro id
    unfold TaskService.markIncomplete
    cases hm : mget ts.tasks id with
    | none => exact ⟨rfl, rfl⟩
    | some ex =>
      dsimp only
      refine ⟨rfl, ?_⟩
      show (⟨mset (mset ts.tasks id _) id ex⟩ : TaskService.State) = ts
      rw [mset_mset, mset_eq_of_mget hm]

/-- Witness for C2 at concrete one-entry states with a failing save. -/
theorem claim_C2_witness :
    (isFailure (TaskService.markComplete ⟨[("a", sampleTask)]⟩ "a" 3 (some "quota")).1
      = true ∧
     (TaskService.markComplete ⟨[("a", sampleTask)]⟩ "a" 3 (some "quota")).2
      = ⟨[("a", sampleTask)]⟩) ∧
    (isFailure (TaskService.deleteTask ⟨[("a", sampleTask)]⟩ "a" (some "quota")).1
      = true ∧
     (∀ k, mget (TaskService.deleteTask ⟨[("a", sampleTask)]⟩ "a" (some "quota")).2.tasks k
      = mget (⟨[("a", sampleTask)]⟩ : TaskService.State).tasks k) ∧
     ((TaskService.deleteTask ⟨[("a", sampleTask)]⟩ "a" (some "quota")).2.tasks).Perm
      (⟨[("a", sampleTask)]⟩ : TaskService.State).tasks) := by
  have h := claim_C2 ⟨[]⟩ ⟨[("a", sampleTask)]⟩ (by simp [keysNodup])
    (by simp [keysNodup]) "quota"
  exact ⟨h.2.2.2.2.2.2.1 "a" 3, h.2.2.2.2.2.1 "a"⟩

/-! ## Claim C6 — week bounds -/

/-- Counterexample to C6 as stated: the `endDate` of week 1 of 2024 is
Sunday January 7 at 00:00 (midnight), not at 23:59:59. -/
theorem claim_C6_cex :
    (getWeekBounds 1 2024).2 = daysFromCivil 2024 1 7 * msPerDay ∧
    daysFromCivil 2024 1 7 * msPerDay
      ≠ daysFromCivil 2024 1 7 * msPerDay + 86399000 := by
  exact ⟨by decide, by decide⟩

/-- C6 (amended): for every valid `(weekNumber, year)`, `getWeekBounds`
returns the Monday of that ISO week at 00:00 as `startDate` and the Sunday
of that ISO week at 00:00 (midnight, not 23:59:59) as `endDate`, computed by
taking the Monday of the week of January 4 (`weekStartDay`, the week-1
Monday) and adding `(weekNumber-1)*7` days for the start and 6 more days for
the end. -/
theorem claim_C6 (w y : Int) (h1 : 1 ≤ w) (h2 : w ≤ isoWeeksInYear y) :
    (getWeekBounds w y).1 = weekStartDay w y * msPerDay ∧
    (getWeekBounds w y).2 = (weekStartDay w y + 6) * msPerDay ∧
    isoDayNum (weekStartDay w y) = 1 ∧
    isoDayNum (weekStartDay w y + 6) = 7 ∧
    (getWeekBounds w y).1 % msPerDay = 0 ∧
    (getWeekBounds w y).2 % msPerDay = 0 ∧
    getWeekNumberD (weekStartDay w y) = (w, y) ∧
    getWeekNumberD (weekStartDay w y + 6) = (w, y) := by
  have hb := getWeekBounds_eq w y
  have hmod := weekStartDay_mod w y
  have e1 : (getWeekBounds w y).1 = weekStartDay w y * msPerDay := by rw [hb]
  have e2 : (getWeekBounds w y).2 = (weekStartDay w y + 6) * msPerDay := by rw [hb]
  refine ⟨e1, e2, ?_, ?_, ?_, ?_, ?_, ?_⟩
  · rw [isoDayNum_eq]; omega
  · rw [isoDayNum_eq]; omega
  · rw [e1, show msPerDay = 86400000 from rfl]; omega
  · rw [e2, show msPerDay = 86400000 from rfl]; omega
  · exact getWeekNumberD_eq_of_valid w y h1 h2 _ (le_refl _) (by omega)
  · exact getWeekNumberD_eq_of_valid w y h1 h2 _ (by omega) (le_refl _)

/-- Witness for the amended C6 at week 1 of 2024
(January 1 – January 7, 2024). -/
theorem claim_C6_witness :
    (getWeekBounds 1 2024).1 = weekStartDay 1 2024 * msPerDay ∧
    (getWeekBounds 1 2024).2 = (weekStartDay 1 2024 + 6) * msPerDay ∧
    isoDayNum (weekStartDay 1 2024) = 1 ∧
    isoDayNum (weekStartDay 1 2024 + 6) = 7 ∧
    (getWeekBounds 1 2024).1 % msPerDay = 0 ∧
    (getWeekBounds 1 2024).2 % msPerDay = 0 ∧
    getWeekNumberD (weekStartDay 1 2024) = (1, 2024) ∧
    getWeekNumberD (weekStartDay 1 2024 + 6) = (1, 2024) :=
  claim_C6 1 2024 (by decide) (by decide)

/-! ## Claim C7 — week bounds consistency -/

/-- C7: for every valid `(weekNumber, year)`, every timestamp between the
returned `startDate` and `endDate` (inclusive) is mapped by `getWeekNumber`
back to `(weekNumber, year)`. -/
theorem claim_C7 (w y : Int) (h1 : 1 ≤ w) (h2 : w ≤ isoWeeksInYear y)
    (t : Int) (hlo : (getWeekBounds w y).1 ≤ t)
    (hhi : t ≤ (getWeekBounds w y).2) : getWeekNumber t = (w, y) := by
  have hb := getWeekBounds_eq w y
  have e1 : (getWeekBounds w y).1 = weekStartDay w y * msPerDay := by rw [hb]
  have e2 : (getWeekBounds w y).2 = (weekStartDay w y + 6) * msPerDay := by rw [hb]
  rw [e1, show msPerDay = 86400000 from rfl] at hlo
  rw [e2, show msPerDay = 86400000 from rfl] at hhi
  have hday1 : weekStartDay w y ≤ t / 86400000 := by omega
  have hday2 : t / 86400000 ≤ weekStartDay w y + 6 := by omega
  show getWeekNumberD (t / msPerDay) = (w, y)
  rw [show msPerDay = 86400000 from rfl]
  exact getWeekNumberD_eq_of_valid w y h1 h2 _ hday1 hday2

/-- Witness for C7: noon of Wednesday March 6, 2024 lies in week 10 of 2024
and maps back to it. -/
theorem claim_C7_witness :
    ((1 : Int) ≤ 10 ∧ (10 : Int) ≤ isoWeeksInYear 2024 ∧
     (getWeekBounds 10 2024).1 ≤ daysFromCivil 2024 3 6 * msPerDay + 43200000 ∧
     daysFromCivil 2024 3 6 * msPerDay + 43200000 ≤ (getWeekBounds 10 2024).2) ∧
    getWeekNumber (daysFromCivil 2024 3 6 * msPerDay + 43200000) = (10, 2024) :=
  ⟨⟨by decide, by decide, by decide, by decide⟩,
   claim_C7 10 2024 (by decide) (by decide) _ (by decide) (by decide)⟩

/-! ## Claim C9 — weekly statistics -/

/-- Spec-side count of tasks whose deadline falls in ISO week `(w, y)`. -/
def tasksInWeekCount (ts : TaskService.State) (w y : Int) : Nat :=
  (TaskService.getAllTasks ts).countP
    (fun t => decide (getWeekNumber t.deadline = (w, y)))

/-- Spec-side count of completed tasks whose deadline falls in `(w, y)`. -/
def completedInWeekCount (ts : TaskService.State) (w y : Int) : Nat :=
  (TaskService.getAllTasks ts).countP
    (fun t => decide (getWeekNumber t.deadline = (w, y)) && t.completed)

/-- The spec's `round(100 * num/den)` on naturals (round half up). -/
def roundHalfUp (num den : Nat) : Nat := (2 * num + den) / (2 * den)

theorem isDateInWeek_eq_decide (t w y : Int) :
    isDateInWeek t w y = decide (getWeekNumber t = (w, y)) := by
  unfold isDateInWeek
  dsimp only
  rcases hg : getWeekNumber t with ⟨a, b⟩
  by_cases h1 : a = w <;> by_cases h2 : b = y <;> simp [h1, h2, Prod.ext_iff]

/-- The demo course of the spec's concrete scenario. -/
def demoCourse : Course :=
  { id := "c1", name := "Algorithms", department := "CS", createdAt := 0 }

/-- One stored course for the concrete scenario. -/
def demoCourses : CourseService.State := ⟨[("c1", demoCourse)]⟩

/-- Three tasks due in ISO week 10 of 2024 (March 4 – March 10), exactly one
of them completed. -/
def demoTasks : TaskService.State := ⟨[
  ("t1", { id := "t1", courseId := "c1", description := "p1",
           deadline := daysFromCivil 2024 3 4 * msPerDay,
           completed := true, completedAt := some 1, createdAt := 0 }),
  ("t2", { id := "t2", courseId := "c1", description := "p2",
           deadline := daysFromCivil 2024 3 5 * msPerDay,
           completed := false, completedAt := none, createdAt := 0 }),
  ("t3", { id := "t3", courseId := "c1", description := "p3",
           deadline := daysFromCivil 2024 3 10 * msPerDay,
           completed := false, completedAt := none, createdAt := 0 })]⟩

/-- C9: `getWeeklyStatistics` counts exactly the tasks whose deadline falls
in the requested ISO week, counts the completed ones among them, and its
`completionPercentage` is `round(100 * completed/total)` (0 when the week is
empty); concretely, with 3 tasks in week 10 of 2024 of which 1 is complete,
it returns `totalTasks = 3`, `completedTasks = 1`,
`completionPercentage = 33`. -/
theorem claim_C9 :
    (∀ (ts : TaskService.State) (cs : CourseService.State) (w y now : Int),
      (StatisticsService.getWeeklyStatistics ts cs w y now).totalTasks
        = tasksInWeekCount ts w y ∧
      (StatisticsService.getWeeklyStatistics ts cs w y now).completedTasks
        = completedInWeekCount ts w y ∧
      (StatisticsService.getWeeklyStatistics ts cs w y now).completionPercentage
        = (if tasksInWeekCount ts w y = 0 then 0
           else roundHalfUp (100 * completedInWeekCount ts w y)
             (tasksInWeekCount ts w y))) ∧
    ((StatisticsService.getWeeklyStatistics demoTasks demoCourses 10 2024 0).totalTasks
        = 3 ∧
     (StatisticsService.getWeeklyStatistics demoTasks demoCourses 10 2024 0).completedTasks
        = 1 ∧
     (StatisticsService.getWeeklyStatistics demoTasks demoCourses 10 2024 0).completionPercentage
        = 33) := by
  constructor
  · intro ts cs w y now
    have htot : (StatisticsService.getWeeklyStatistics ts cs w y now).totalTasks
        = tasksInWeekCount ts w y := by
      show (TaskService.getTasksForWeek ts w y).length = tasksInWeekCount ts w y
      unfold TaskService.getTasksForWeek tasksInWeekCount
      rw [List.countP_eq_length_filter]
      congr 1
      apply List.filter_congr
      intro t _
      exact isDateInWeek_eq_decide t.deadline w y
    have hcomp : (StatisticsService.getWeeklyStatistics ts cs w y now).completedTasks
        = completedInWeekCount ts w y := by
      show ((TaskService.getTasksForWeek ts w y).filter (fun t => t.completed)).length
        = completedInWeekCount ts w y
      unfold TaskService.getTasksForWeek completedInWeekCount
      rw [List.countP_eq_length_filter, List.filter_filter]
      congr 1
      apply List.filter_congr
      intro t _
      rw [isDateInWeek_eq_decide t.deadline w y, Bool.and_comm]
    refine ⟨htot, hcomp, ?_⟩
    show (if (TaskService.getTasksForWeek ts w y).length > 0 then
        StatisticsService.roundPct
          ((TaskService.getTasksForWeek ts w y).filter (fun t => t.completed)).length
          (TaskService.getTasksForWeek ts w y).length
      else 0)
      = (if tasksInWeekCount ts w y = 0 then 0
         else roundHalfUp (100 * completedInWeekCount ts w y) (tasksInWeekCount ts w y))
    rw [show (TaskService.getTasksForWeek ts w y).length
        = (StatisticsService.getWeeklyStatistics ts cs w y now).totalTasks from rfl,
      show ((TaskService.getTasksForWeek ts w y).filter (fun t => t.completed)).length
        = (StatisticsService.getWeeklyStatistics ts cs w y now).completedTasks from rfl,
      htot, hcomp]
    by_cases h0 : tasksInWeekCount ts w y = 0
    · rw [h0]
      simp
    · rw [if_neg h0, if_pos (by omega)]
      unfold StatisticsService.roundPct roundHalfUp
      congr 2
      omega
  · refine ⟨by decide, by decide, by decide⟩

/-! ## Claim C3 — course deletion leaves no orphans -/

theorem getTasksByCourse_length (ts : TaskService.State) (cid : String) :
    (TaskService.getTasksByCourse ts cid).length
      = ts.tasks.countP (fun p => p.2.courseId == cid) := by
  unfold TaskService.getTasksByCourse mvalues
  rw [← List.countP_eq_length_filter, List.countP_map]
  rfl

theorem mdel_eq_filter (m : List (String × α)) (k : String) :
    mdel m k = m.filter (fun p => !(p.1 == k)) := by
  induction m with
  | nil => rfl
  | cons p r ih =>
    obtain ⟨k0, v0⟩ := p
    by_cases hk : k0 = k
    · subst hk
      simp [mdel, ih]
    · simp [mdel, hk, ih]

theorem nodup_key_inj {m : List (String × α)} (hnd : keysNodup m)
    {p q : String × α} (hp : p ∈ m) (hq : q ∈ m) (hk : p.1 = q.1) : p = q := by
  have h1 := mget_of_mem_nodup hnd hp
  have h2 := mget_of_mem_nodup hnd hq
  rw [hk, h2] at h1
  injection h1 with h3
  calc p = (p.1, p.2) := rfl
    _ = (q.1, q.2) := by rw [hk, h3]
    _ = q := rfl

theorem mset_cons_self (k : String) (v0 v : α) (r : List (String × α)) :
    mset ((k, v0) :: r) k v = (k, v) :: r := by
  simp [mset]

theorem mset_cons_ne {k0 k : String} (h : k0 ≠ k) (v0 v : α)
    (r : List (String × α)) :
    mset ((k0, v0) :: r) k v = (k0, v0) :: mset r k v := by
  simp [mset, h]

theorem mdel_cons_self (k : String) (v0 : α) (r : List (String × α)) :
    mdel ((k, v0) :: r) k = mdel r k := by
  simp [mdel]

theorem mdel_cons_ne {k0 k : String} (h : k0 ≠ k) (v0 : α)
    (r : List (String × α)) :
    mdel ((k0, v0) :: r) k = (k0, v0) :: mdel r k := by
  simp [mdel, h]

/-- The ids of the tasks associated with a course form a sublist of the map
keys (given key consistency), hence are pairwise distinct. -/
theorem assoc_ids_sublist (m : List (String × Task)) (Q : Task → Bool)
    (hid : ∀ p ∈ m, p.2.id = p.1) :
    (((m.map Prod.snd).filter Q).map (fun t => t.id)).Sublist (m.map Prod.fst) := by
  induction m with
  | nil => simp
  | cons p r ih =>
    obtain ⟨k0, v0⟩ := p
    have hid0 : v0.id = k0 := hid (k0, v0) (List.mem_cons_self _ _)
    have ihr := ih (fun q hq => hid q (List.mem_cons_of_mem _ hq))
    by_cases hq : Q v0 = true
    · rw [List.map_cons, List.filter_cons, if_pos hq, List.map_cons, hid0,
        List.map_cons]
      exact ihr.cons₂ k0
    · rw [List.map_cons, List.filter_cons, if_neg (by simp [hq]), List.map_cons]
      exact ihr.cons k0

theorem assoc_ids_nodup (ts : TaskService.State) (cid : String)
    (hnt : keysNodup ts.tasks) (hid : ∀ p ∈ ts.tasks, p.2.id = p.1) :
    ((TaskService.getTasksByCourse ts cid).map (fun t => t.id)).Nodup := by
  have hs := assoc_ids_sublist ts.tasks (fun t => t.courseId == cid) hid
  exact List.Nodup.sublist hs hnt

theorem assoc_snapshot (ts : TaskService.State) (cid : String)
    (hnt : keysNodup ts.tasks) (hid : ∀ p ∈ ts.tasks, p.2.id = p.1) :
    ∀ t ∈ TaskService.getTasksByCourse ts cid, mget ts.tasks t.id = some t := by
  intro t ht
  unfold TaskService.getTasksByCourse mvalues at ht
  obtain ⟨ht1, -⟩ := List.mem_filter.mp ht
  obtain ⟨p, hp, rfl⟩ := List.mem_map.mp ht1
  rw [hid p hp]
  exact mget_of_mem_nodup hnt hp

/-- Folding `mset` with per-task replacements over entries whose keys avoid
the head leaves the head in place. -/
theorem foldl_mset_cons (f : Task → Task) (k : String) (v : Task) :
    ∀ (l : List Task) (r : List (String × Task)), (∀ t ∈ l, t.id ≠ k) →
      l.foldl (fun acc t => mset acc t.id (f t)) ((k, v) :: r)
        = (k, v) :: l.foldl (fun acc t => mset acc t.id (f t)) r := by
  intro l
  induction l with
  | nil => intro r _; rfl
  | cons t rest ih =>
    intro r hall
    have ht : t.id ≠ k := hall t (List.mem_cons_self _ _)
    show rest.foldl _ (mset ((k, v) :: r) t.id (f t)) = _
    rw [mset_cons_ne (Ne.symm ht) v (f t) r]
    rw [ih (mset r t.id (f t)) (fun q hq => hall q (List.mem_cons_of_mem _ hq))]
    rfl

/-- Folding `mdel` with per-task keys over entries whose keys avoid the head
leaves the head in place. -/
theorem foldl_mdel_cons (k : String) (v : Task) :
    ∀ (l : List Task) (r : List (String × Task)), (∀ t ∈ l, t.id ≠ k) →
      l.foldl (fun acc t => mdel acc t.id) ((k, v) :: r)
        = (k, v) :: l.foldl (fun acc t => mdel acc t.id) r := by
  intro l
  induction l with
  | nil => intro r _; rfl
  | cons t rest ih =>
    intro r hall
    have ht : t.id ≠ k := hall t (List.mem_cons_self _ _)
    show rest.foldl _ (mdel ((k, v) :: r) t.id) = _
    rw [mdel_cons_ne (Ne.symm ht) v r]
    exact ih (mdel r t.id) (fun q hq => hall q (List.mem_cons_of_mem _ hq))

/-- Cascading deletion of the associated tasks removes exactly the entries
whose task references the course. -/
theorem foldl_mdel_assoc (cid : String) :
    ∀ (m : List (String × Task)), keysNodup m → (∀ p ∈ m, p.2.id = p.1) →
      ((m.map Prod.snd).filter (fun t => t.courseId == cid)).foldl
          (fun acc t => mdel acc t.id) m
        = m.filter (fun p => !(p.2.courseId == cid)) := by
  intro m
  induction m with
  | nil => intro _ _; rfl
  | cons p r ih =>
    intro hnd hid
    obtain ⟨k0, v0⟩ := p
    rw [keysNodup_cons] at hnd
    have hid0 : v0.id = k0 := hid (k0, v0) (List.mem_cons_self _ _)
    have hidr : ∀ q ∈ r, q.2.id = q.1 := fun q hq => hid q (List.mem_cons_of_mem _ hq)
    have havoid : ∀ t ∈ (r.map Prod.snd).filter (fun t => t.courseId == cid),
        t.id ≠ k0 := by
      intro t ht
      obtain ⟨ht1, -⟩ := List.mem_filter.mp ht
      obtain ⟨q, hq, rfl⟩ := List.mem_map.mp ht1
      rw [hidr q hq]
      intro hh
      exact hnd.1 (hh ▸ List.mem_map_of_mem Prod.fst hq)
    by_cases hq : (v0.courseId == cid) = true
    · rw [List.map_cons, List.filter_cons, if_pos hq]
      show ((r.map Prod.snd).filter (fun t => t.courseId == cid)).foldl _
        (mdel ((k0, v0) :: r) v0.id) = _
      rw [hid0, mdel_cons_self k0 v0 r]
      rw [mdel_eq_self ((mget_eq_none_iff r k0).mpr hnd.1)]
      rw [ih hnd.2 hidr]
      rw [List.filter_cons, if_neg (by simp [hq])]
    · rw [List.map_cons, List.filter_cons, if_neg (by simp [hq])]
      rw [foldl_mdel_cons k0 v0 _ r havoid, ih hnd.2 hidr]
      rw [List.filter_cons, if_pos (by simp [hq])]

/-- Reassignment of the associated tasks re-points exactly the entries whose
task references the course. -/
theorem foldl_mset_assoc (cid tgt : String) :
    ∀ (m : List (String × Task)), keysNodup m → (∀ p ∈ m, p.2.id = p.1) →
      ((m.map Prod.snd).filter (fun t => t.courseId == cid)).foldl
          (fun acc t => mset acc t.id { t with courseId := tgt }) m
        = m.map (fun p =>
            if p.2.courseId == cid then (p.1, { p.2 with courseId := tgt }) else p) := by
  intro m
  induction m with
  | nil => intro _ _; rfl
  | cons p r ih =>
    intro hnd hid
    obtain ⟨k0, v0⟩ := p
    rw [keysNodup_cons] at hnd
    have hid0 : v0.id = k0 := hid (k0, v0) (List.mem_cons_self _ _)
    have hidr : ∀ q ∈ r, q.2.id = q.1 := fun q hq => hid q (List.mem_cons_of_mem _ hq)
    have havoid : ∀ t ∈ (r.map Prod.snd).filter (fun t => t.courseId == cid),
        t.id ≠ k0 := by
      intro t ht
      obtain ⟨ht1, -⟩ := List.mem_filter.mp ht
      obtain ⟨q, hq, rfl⟩ := List.mem_map.mp ht1
      rw [hidr q hq]
      intro hh
      exact hnd.1 (hh ▸ List.mem_map_of_mem Prod.fst hq)
    by_cases hq : (v0.courseId == cid) = true
    · rw [List.map_cons, List.filter_cons, if_pos hq]
      show ((r.map Prod.snd).filter (fun t => t.courseId == cid)).foldl _
        (mset ((k0, v0) :: r) v0.id { v0 with courseId := tgt }) = _
      rw [hid0, mset_cons_self]
      rw [foldl_mset_cons _ k0 _ _ r havoid, ih hnd.2 hidr]
      rw [List.map_cons]
      congr 1
      simp [hq, hid0]
    · rw [List.map_cons, List.filter_cons, if_neg (by simp [hq])]
      rw [foldl_mset_cons _ k0 v0 _ r havoid, ih hnd.2 hidr]
      rw [List.map_cons]
      congr 1
      simp [hq]

/-- Counting after reassignment: every entry referencing `cid` now
references `tgt`, nothing references `cid` any more, and entries already
referencing `tgt` are untouched. -/
theorem counts_after_reassign (cid tgt : String) (hne : tgt ≠ cid)
    (m : List (String × Task)) :
    ((m.map (fun p =>
        if p.2.courseId == cid then (p.1, { p.2 with courseId := tgt }) else p)).countP
      (fun p => p.2.courseId == tgt)
      = m.countP (fun p => p.2.courseId == tgt) + m.countP (fun p => p.2.courseId == cid)) ∧
    (m.map (fun p =>
        if p.2.courseId == cid then (p.1, { p.2 with courseId := tgt }) else p)).countP
      (fun p => p.2.courseId == cid) = 0 := by
  induction m with
  | nil => exact ⟨rfl, rfl⟩
  | cons p r ih =>
    obtain ⟨hA, hB⟩ := ih
    have hnecs : ¬ cid = tgt := fun hh => hne hh.symm
    by_cases h1 : p.2.courseId = cid
    · simp only [List.map_cons, List.countP_cons, hA, hB, h1]
      constructor
      · simp [hne, hnecs]
        omega
      · simp [hne, hnecs]
    · by_cases h2 : p.2.courseId = tgt
      · simp only [List.map_cons, List.countP_cons, hA, hB]
        constructor
        · simp [h1, h2, hne, hnecs]
          omega
        · simp [h1, h2, hne, hnecs]
      · simp only [List.map_cons, List.countP_cons, hA, hB]
        constructor
        · simp [h1, h2, hne, hnecs]
        · simp [h1, h2, hne, hnecs]

theorem deleteTask_ok_state (ts : TaskService.State) (id : String)
    (so : Option String) (h : (TaskService.deleteTask ts id so).1 = .ok ()) :
    (TaskService.deleteTask ts id so).2 = ⟨mdel ts.tasks id⟩ := by
  unfold TaskService.deleteTask at h ⊢
  cases hm : mget ts.tasks id with
  | none =>
    rw [hm] at h
    exact Except.noConfusion h
  | some ex =>
    rw [hm] at h
    dsimp only at h ⊢
    cases hso : so with
    | none => rfl
    | some msg =>
      rw [hso] at h
      exact Except.noConfusion h

/-- A successful `updateTask` whose partial carries only a (trim-invariant,
non-empty) `courseId` re-points exactly that field. -/
theorem updateTask_cidonly_ok (ts : TaskService.State) (id tgt : String)
    (so : Option String) (t : Task) (htgt : tgt ≠ "") (htr : jsTrim tgt = tgt)
    (hok : (TaskService.updateTask ts id { courseId := some tgt } so).1 = .ok t) :
    so = none ∧ ∃ ex, mget ts.tasks id = some ex ∧ t = { ex with courseId := tgt } ∧
      (TaskService.updateTask ts id { courseId := some tgt } so).2
        = ⟨mset ts.tasks id t⟩ := by
  have hvne : validateNonEmptyString tgt = some tgt := by
    unfold validateNonEmptyString
    dsimp only
    rw [htr, if_pos (length_pos_of_ne_empty htgt)]
  unfold TaskService.updateTask at hok ⊢
  cases hm : mget ts.tasks id with
  | none =>
    rw [hm] at hok
    exact Except.noConfusion hok
  | some ex =>
    rw [hm] at hok
    dsimp only at hok ⊢
    rw [show validateField ex.description none
        "Task description cannot be empty or whitespace only"
        = .ok ex.description from rfl] at hok ⊢
    rw [validateDeadline_eq] at hok ⊢
    dsimp only at hok ⊢
    rw [show validateField ex.courseId (some tgt) "Course ID cannot be empty"
        = .ok tgt from by
      unfold validateField
      dsimp only
      rw [hvne]] at hok ⊢
    dsimp only at hok ⊢
    cases hso : so with
    | some msg =>
      rw [hso] at hok
      exact Except.noConfusion hok
    | none =>
      rw [hso] at hok
      dsimp only at hok
      injection hok with h2
      subst h2
      exact ⟨rfl, ex, rfl, rfl, rfl⟩

theorem if_not_true (a b : α) : (if !true then a else b) = b := rfl

theorem cascadeSteps_ok (oracle : Nat → Option String) :
    ∀ (l : List Task) (ts : TaskService.State) (i : Nat),
      (CourseService.cascadeSteps oracle ts i l).1 = .ok () →
      (CourseService.cascadeSteps oracle ts i l).2.1.tasks
        = l.foldl (fun m t => mdel m t.id) ts.tasks := by
  intro l
  induction l with
  | nil => intro ts i _; rfl
  | cons t rest ih =>
    intro ts i hok
    have hstep : CourseService.cascadeSteps oracle ts i (t :: rest)
        = match TaskService.deleteTask ts t.id (oracle i) with
          | (.ok _, ts') => CourseService.cascadeSteps oracle ts' (i + 1) rest
          | (.error e, ts') =>
            (.error (.generic ("Failed to delete task " ++ t.id ++ ": " ++ e.message)),
             ts', i + 1) := rfl
    rcases hd : TaskService.deleteTask ts t.id (oracle i) with ⟨r, ts2⟩
    cases r with
    | error e =>
      rw [hstep, hd] at hok
      exact Except.noConfusion hok
    | ok u =>
      cases u
      rw [hstep, hd] at hok ⊢
      dsimp only at hok ⊢
      have hts2 : ts2 = ⟨mdel ts.tasks t.id⟩ := by
        have h2 := deleteTask_ok_state ts t.id (oracle i) (by rw [hd])
        rw [hd] at h2
        exact h2
      rw [ih ts2 (i + 1) hok, hts2]
      rfl

theorem reassignSteps_ok (oracle : Nat → Option String) (tgt : String)
    (htgt : tgt ≠ "") (htr : jsTrim tgt = tgt) :
    ∀ (l : List Task) (ts : TaskService.State) (i : Nat),
      (∀ t ∈ l, mget ts.tasks t.id = some t) →
      (l.map (fun t => t.id)).Nodup →
      (CourseService.reassignSteps oracle tgt ts i l).1 = .ok () →
      (CourseService.reassignSteps oracle tgt ts i l).2.1.tasks
        = l.foldl (fun m t => mset m t.id { t with courseId := tgt }) ts.tasks := by
  intro l
  induction l with
  | nil => intro ts i _ _ _; rfl
  | cons t rest ih =>
    intro ts i hsnap hnd hok
    have hstep : CourseService.reassignSteps oracle tgt ts i (t :: rest)
        = match TaskService.updateTask ts t.id { courseId := some tgt } (oracle i) with
          | (.ok _, ts') => CourseService.reassignSteps oracle tgt ts' (i + 1) rest
          | (.error e, ts') =>
            (.error (.generic ("Failed to reassign task " ++ t.id ++ ": " ++ e.message)),
             ts', i + 1) := rfl
    rcases hupd : TaskService.updateTask ts t.id { courseId := some tgt } (oracle i)
      with ⟨r, ts2⟩
    cases r with
    | error e =>
      rw [hstep, hupd] at hok
      exact Except.noConfusion hok
    | ok u =>
      rw [hstep, hupd] at hok ⊢
      dsimp only at hok ⊢
      obtain ⟨-, ex, hex, hteq, hst⟩ :=
        updateTask_cidonly_ok ts t.id tgt (oracle i) u htgt htr (by rw [hupd])
      have hext : ex = t := by
        rw [hsnap t (List.mem_cons_self _ _)] at hex
        injection hex with h2
        exact h2.symm
      rw [hext] at hteq
      rw [hupd] at hst
      have hts2 : ts2 = ⟨mset ts.tasks t.id u⟩ := hst
      rw [List.map_cons, List.nodup_cons] at hnd
      have hrest : ∀ t' ∈ rest, mget ts2.tasks t'.id = some t' := by
        intro t' ht'
        rw [hts2]
        have hne2 : t'.id ≠ t.id := fun hh =>
          hnd.1 (hh ▸ List.mem_map_of_mem (fun q => q.id) ht')
        show mget (mset ts.tasks t.id u) t'.id = some t'
        rw [mget_mset_ne _ _ hne2]
        exact hsnap t' (List.mem_cons_of_mem _ ht')
      rw [ih ts2 (i + 1) hrest hnd.2 hok, hts2, hteq]
      rfl

/-- C3: if `deleteCourseWithTasks` (with the task collaborator wired, as in
`TrackerService`) returns success, no task references the deleted course id
afterwards; under `cascade` exactly the associated tasks are deleted (the
final task map is the original filtered of them), and under `reassign` the
tasks referencing `targetCourseId` afterwards are the previous ones plus the
N reassigned — exactly N when none referenced it before.  `hid` and `hnt`
are the JS `Map` well-formedness of the task state (`tasks.set(task.id,
task)` keys); `htr` reflects that course ids come from the whitespace-free
unique-id generator. -/
theorem claim_C3 (cs : CourseService.State) (ts : TaskService.State)
    (hnt : keysNodup ts.tasks) (hid : ∀ p ∈ ts.tasks, p.2.id = p.1)
    (id : String) (strategy : DeletionStrategy) (target : Option String)
    (oracle : Nat → Option String)
    (htr : ∀ tgt, target = some tgt → jsTrim tgt = tgt)
    (hres : (CourseService.deleteCourseWithTasks true cs ts id strategy target
      oracle).1 = .ok ()) :
    (TaskService.getTasksByCourse
        (CourseService.deleteCourseWithTasks true cs ts id strategy target
          oracle).2.2 id).length = 0 ∧
    (strategy = .cascade →
      (CourseService.deleteCourseWithTasks true cs ts id strategy target
          oracle).2.2.tasks
        = ts.tasks.filter (fun p => !(p.2.courseId == id))) ∧
    (∀ tgt, target = some tgt → strategy = .reassign →
      ((CourseService.deleteCourseWithTasks true cs ts id strategy target
            oracle).2.2.tasks.countP (fun p => p.2.courseId == tgt)
        = ts.tasks.countP (fun p => p.2.courseId == tgt)
          + (TaskService.getTasksByCourse ts id).length) ∧
      (ts.tasks.countP (fun p => p.2.courseId == tgt) = 0 →
        (CourseService.deleteCourseWithTasks true cs ts id strategy target
            oracle).2.2.tasks.countP (fun p => p.2.courseId == tgt)
          = (TaskService.getTasksByCourse ts id).length)) := by
  unfold CourseService.deleteCourseWithTasks at hres ⊢
  cases hm : mget cs.courses id with
  | none =>
    rw [hm] at hres
    exact Except.noConfusion hres
  | some c0 =>
    rw [hm] at hres
    dsimp only at hres ⊢
    rw [if_not_true] at hres ⊢
    cases strategy with
    | cascade =>
      rcases hcs : CourseService.cascadeSteps oracle ts 0
          (TaskService.getTasksByCourse ts id) with ⟨r, ts2, used⟩
      cases r with
      | error e =>
        rw [hcs] at hres
        exact Except.noConfusion hres
      | ok u =>
        cases u
        rw [hcs] at hres
        dsimp only at hres ⊢
        have hfold := cascadeSteps_ok oracle (TaskService.getTasksByCourse ts id)
          ts 0 (by rw [hcs])
        rw [hcs] at hfold
        dsimp only at hfold
        have hfilter : ts2.tasks = ts.tasks.filter (fun p => !(p.2.courseId == id)) := by
          rw [hfold]
          exact foldl_mdel_assoc id ts.tasks hnt hid
        refine ⟨?_, fun _ => hfilter, fun tgt htgeq hstrat => DeletionStrategy.noConfusion hstrat⟩
        rw [getTasksByCourse_length, hfilter, List.countP_eq_zero]
        intro p hp
        have := (List.mem_filter.mp hp).2
        simp at this
        simp [this]
    | reassign =>
      by_cases hfal : target = none ∨ target = some ""
      · rw [if_pos hfal] at hres
        exact Except.noConfusion hres
      · rw [if_neg hfal] at hres ⊢
        cases target with
        | none => exact absurd (Or.inl rfl) hfal
        | some tgt =>
          have htgtne : tgt ≠ "" := fun hh => hfal (Or.inr (by rw [hh]))
          dsimp only at hres ⊢
          cases hmt : mget cs.courses tgt with
          | none =>
            rw [hmt] at hres
            exact Except.noConfusion hres
          | some ct =>
            rw [hmt] at hres
            dsimp only at hres ⊢
            by_cases hti : tgt = id
            · rw [if_pos hti] at hres
              exact Except.noConfusion hres
            · rw [if_neg hti] at hres ⊢
              rcases hrs : CourseService.reassignSteps oracle tgt ts 0
                  (TaskService.getTasksByCourse ts id) with ⟨r, ts2, used⟩
              cases r with
              | error e =>
                rw [hrs] at hres
                exact Except.noConfusion hres
              | ok u =>
                cases u
                rw [hrs] at hres
                dsimp only at hres ⊢
                have htrg : jsTrim tgt = tgt := htr tgt rfl
                have hfold := reassignSteps_ok oracle tgt htgtne htrg
                  (TaskService.getTasksByCourse ts id) ts 0
                  (assoc_snapshot ts id hnt hid) (assoc_ids_nodup ts id hnt hid)
                  (by rw [hrs])
                rw [hrs] at hfold
                dsimp only at hfold
                have hmap : ts2.tasks = ts.tasks.map (fun p =>
                    if p.2.courseId == id then (p.1, { p.2 with courseId := tgt })
                    else p) := by
                  rw [hfold]
                  exact foldl_mset_assoc id tgt ts.tasks hnt hid
                have hcounts := counts_after_reassign id tgt hti ts.tasks
                refine ⟨?_, fun hstrat => DeletionStrategy.noConfusion hstrat, ?_⟩
                · rw [getTasksByCourse_length, hmap]
                  exact hcounts.2
                · intro tgt' htg hstrat
                  injection htg with htg2
                  subst htg2
                  constructor
                  · rw [getTasksByCourse_length, hmap]
                    exact hcounts.1
                  · intro h0
                    rw [getTasksByCourse_length, hmap, hcounts.1, h0]
                    omega

/-- Courses for the C3 witness: `c1` (to be deleted) and `c2` (target). -/
def c3Courses : CourseService.State := ⟨[
  ("c1", { id := "c1", name := "A", department := "D", createdAt := 0 }),
  ("c2", { id := "c2", name := "B", department := "D", createdAt := 0 })]⟩

/-- Tasks for the C3 witness: two tasks attached to `c1`. -/
def c3Tasks : TaskService.State := ⟨[
  ("t1", { id := "t1", courseId := "c1", description := "x", deadline := 0,
           completed := false, completedAt := none, createdAt := 0 }),
  ("t2", { id := "t2", courseId := "c1", description := "y", deadline := 0,
           completed := false, completedAt := none, createdAt := 0 })]⟩

/-- Witness for C3: reassigning `c1`'s two tasks to `c2` succeeds, leaves no
task on `c1`, and moves exactly the two tasks to `c2`. -/
theorem claim_C3_witness :
    (TaskService.getTasksByCourse
        (CourseService.deleteCourseWithTasks true c3Courses c3Tasks "c1"
          .reassign (some "c2") (fun _ => none)).2.2 "c1").length = 0 ∧
    (CourseService.deleteCourseWithTasks true c3Courses c3Tasks "c1"
        .reassign (some "c2") (fun _ => none)).2.2.tasks.countP
      (fun p => p.2.courseId == "c2")
      = c3Tasks.tasks.countP (fun p => p.2.courseId == "c2")
        + (TaskService.getTasksByCourse c3Tasks "c1").length := by
  have h := claim_C3 c3Courses c3Tasks (by simp [keysNodup, c3Tasks])
    (by decide) "c1" .reassign (some "c2") (fun _ => none)
    (by intro tgt htg; injection htg with h2; subst h2; rfl)
    rfl
  exact ⟨h.1, (h.2.2 "c2" rfl rfl).1⟩

end Weekly
